import Mathlib

/-!
# Cache simulator: embedding of `cachesim.h` and of the simulation loop of `cachesim.c`

Conventions of the embedding.

* C `int` values that the simulator only adds, compares or shifts within range are
  integers (`Int`); the one place where a value is narrowed, `int addr = line.addr`
  (cachesim.h line 109), is the explicit two's complement wrap `to_int32`.
* `>>` on a signed `int` is the arithmetic shift (`Int.shiftRight`) and `&` is the
  two's complement conjunction (`Int.land`), as gcc and clang define them for
  negative values.  A shift count of 32 or more and a signed overflow are undefined
  in C.  Two of them occur in configurations that run, and the definitions give them
  the value of the compiled code: the tag shift of line 117 takes its count modulo 32
  (`addr_tag`), and the `int` product `max_size` of cachesim.c line 103 wraps
  (`max_size`, used by `main_run_int`).  The other shifts and products get their
  mathematical value, which is their C value in every configuration whose `max_size`
  fits an `int`; `main_run` is the run with the product `S*E*B` itself as the number
  of blocks, and agrees with `main_run_int` in those configurations.  Every concrete
  input evaluated below stays inside the defined range unless its statement says
  otherwise, and the general theorems about lookups use the tag only as a value that
  is stored and compared.
* `s`, `b` and `E` are natural numbers: `main` exits before the simulation when one
  of them is not positive (cachesim.c lines 83-86).
* The cache is the list of the allocated `cache_block`s.  An access outside the
  list (undefined in C) makes a lookup return `none`.
* `clock()` is an input: each lookup receives the reading `now` that its single
  call of `clock()` returns.
* The loop of `main` runs on the records that `init_cache_line` returns for the lines
  of the trace file.  The conversions of `sscanf` for the address and the size, and
  the value of a local that `sscanf` leaves unassigned, are inputs of
  `init_cache_line`.
-/

namespace CacheSim

/-! ## Types (cachesim.h lines 10-42) -/

/-- The enum `FLAG`. -/
inductive FLAG where
  | I_LOAD
  | D_LOAD
  | D_STORE
  | D_MODIFY
  | INVALID
deriving DecidableEq, Repr

/-- The struct `cache_result`: three `int` flags. -/
structure cache_result where
  hit : Int
  miss : Int
  eviction : Int
deriving DecidableEq, Repr

/-- The struct `cache_line`: a parsed trace record; `addr` is the
`long long unsigned int` address. -/
structure cache_line where
  flag : FLAG
  addr : Nat
  size : Int
deriving DecidableEq, Repr

/-- The struct `cache_params`. -/
structure cache_params where
  S : Nat
  s : Nat
  B : Nat
  b : Nat
  E : Nat
deriving DecidableEq, Repr

/-- The struct `cache_block`: valid bit, tag and time stamp of one line. -/
structure cache_block where
  v_bit : Int
  tag : Int
  tstamp : Int
deriving DecidableEq, Repr

/-! ## Construction (cachesim.h lines 44-49 and 92-102) -/

/-- The function `init_cache_params`. -/
def init_cache_params (idx_bits associativity block_bits : Nat) : cache_params :=
  let num_sets := 1 <<< idx_bits
  let block_size := 1 <<< block_bits
  { S := num_sets, s := idx_bits, B := block_size, b := block_bits, E := associativity }

/-- The function `init_cache`: `size` blocks, each with tag, valid bit and time stamp 0. -/
def init_cache (size : Nat) : List cache_block :=
  List.replicate size { v_bit := 0, tag := 0, tstamp := 0 }

/-! ## Lookup (cachesim.h lines 108-153) -/

/-- Conversion of an integer to a 32-bit two's complement `int`. -/
def to_int32 (x : Int) : Int :=
  let r := x % 2 ^ 32
  if r < 2 ^ 31 then r else r - 2 ^ 32

/-- Lines 109-116: the value that `set_index` holds after line 116. -/
def addr_set_index (params : cache_params) (line : cache_line) : Int :=
  let addr := to_int32 line.addr
  let block_offset := params.b
  let set_index := params.s
  Int.land (addr >>> block_offset) (((1 <<< set_index : Nat) : Int) - 1)

/-- Line 117: the value of `tag`.  The shift count is `set_index + block_offset`
where `set_index` is the variable that line 116 has just overwritten.  The count can
reach 32 (`s=5, b=5` and set index 31 give 36), which C leaves undefined; the shift
instruction of the compiled code takes the count modulo 32, and so does the
definition. -/
def addr_tag (params : cache_params) (line : cache_line) : Int :=
  let addr := to_int32 line.addr
  let block_offset := params.b
  let set_index := addr_set_index params line
  addr >>> ((set_index + block_offset).toNat % 32)

/-- Lines 120-132: the loop over the lines of the set, entered at `block_num` with
`n` iterations left.  `set` is the index of the first block of the set.
`some (some (result, cache))` is a `return` inside the loop, `some none` is the
loop running to its end, `none` is an access outside the cache. -/
def scan_set (cache : List cache_block) (set : Nat) (tag now : Int) :
    Nat → Nat → Option (Option (cache_result × List cache_block))
  | _, 0 => some none
  | block_num, n + 1 =>
    match cache[set + block_num]? with
    | none => none
    | some blk =>
      if blk.v_bit = 1 ∧ blk.tag = tag then
        some (some ({ hit := 1, miss := 0, eviction := 0 },
          cache.set (set + block_num) { blk with tstamp := now }))
      else if blk.v_bit = 0 then
        some (some ({ hit := 0, miss := 1, eviction := 0 },
          cache.set (set + block_num) { v_bit := 1, tag := tag, tstamp := now }))
      else scan_set cache set tag now (block_num + 1) n

/-- Lines 139-144: the loop that looks for the smallest time stamp, entered at `i`
with `n` iterations left and the current `lru_tstamp`, `lru_idx`.  Returns the
final `lru_idx`. -/
def lru_scan (cache : List cache_block) (set : Nat) :
    Nat → Nat → Int → Nat → Option Nat
  | _, 0, _, lru_idx => some lru_idx
  | i, n + 1, lru_tstamp, lru_idx =>
    match cache[set + i]? with
    | none => none
    | some blk =>
      if blk.tstamp < lru_tstamp then lru_scan cache set (i + 1) n blk.tstamp i
      else lru_scan cache set (i + 1) n lru_tstamp lru_idx

/-- Lines 134-151: the eviction after the first loop has run to its end. -/
def evict (cache : List cache_block) (set associtivity : Nat) (tag now : Int) :
    Option (cache_result × List cache_block) :=
  match cache[set]? with
  | none => none
  | some first =>
    match lru_scan cache set 0 associtivity first.tstamp 0 with
    | none => none
    | some lru_idx =>
      match cache[set + lru_idx]? with
      | none => none
      | some blk =>
        some ({ hit := 0, miss := 1, eviction := 1 },
          cache.set (set + lru_idx) { blk with tstamp := now, tag := tag })

/-- Line 119: the index in the cache of the first block of the target set,
`set_index * associtivity`. -/
def set_start (params : cache_params) (line : cache_line) : Nat :=
  (addr_set_index params line).toNat * params.E

/-- The function `simulate_cache_read_write`; `now` is the reading of `clock()`. -/
def simulate_cache_read_write (cache : List cache_block) (params : cache_params)
    (line : cache_line) (now : Int) : Option (cache_result × List cache_block) :=
  let associtivity := params.E
  let tag := addr_tag params line
  let set := set_start params line
  match scan_set cache set tag now 0 associtivity with
  | none => none
  | some (some r) => some r
  | some none => evict cache set associtivity tag now

/-! ## Accounting and the simulation loop (cachesim.h lines 155-159, cachesim.c lines 99-159) -/

/-- The function `eval_cache`: the three counters after the call. -/
def eval_cache (hits miss evict : Int) (result : cache_result) : Int × Int × Int :=
  (hits + result.hit, miss + result.miss, evict + result.eviction)

/-- The ways the run stops before the summary. -/
inductive abort where
  | exit_failure
  | out_of_bounds
deriving DecidableEq, Repr

/-- The state of the loop of `main`: the cache, the three counters, the number of
calls of `clock()` made so far, and the arguments passed to `verbose` so far. -/
structure sim_state where
  cache : List cache_block
  hit_count : Int
  miss_count : Int
  eviction_count : Int
  clock_calls : Nat
  reported : List (cache_line × cache_result)
deriving DecidableEq, Repr

/-- One lookup of the loop followed by `eval_cache`; `clk k` is the reading of the
`k`-th call of `clock()`. -/
def lookup_and_count (cache_info : cache_params) (clk : Nat → Int) (st : sim_state)
    (c_line : cache_line) : Except abort (cache_result × sim_state) :=
  match simulate_cache_read_write st.cache cache_info c_line (clk st.clock_calls) with
  | none => .error .out_of_bounds
  | some (result, cache) =>
    let counts := eval_cache st.hit_count st.miss_count st.eviction_count result
    .ok (result, { st with cache := cache, hit_count := counts.1, miss_count := counts.2.1,
                           eviction_count := counts.2.2, clock_calls := st.clock_calls + 1 })

/-- The expression `x | y ? 1 : 0`, which C reads as `(x | y) ? 1 : 0`. -/
def or_flag (x y : Int) : Int :=
  if Int.lor x y ≠ 0 then 1 else 0

/-- The `switch` of cachesim.c lines 118-150 for one record. -/
def process_line (cache_info : cache_params) (clk : Nat → Int) (st : sim_state)
    (c_line : cache_line) : Except abort sim_state :=
  match c_line.flag with
  | .I_LOAD | .D_LOAD | .D_STORE =>
    match lookup_and_count cache_info clk st c_line with
    | .error e => .error e
    | .ok (result, st1) => .ok { st1 with reported := st1.reported ++ [(c_line, result)] }
  | .D_MODIFY =>
    match lookup_and_count cache_info clk st c_line with
    | .error e => .error e
    | .ok (result, st1) =>
      let h := result.hit
      let ev := result.eviction
      let m := result.miss
      match lookup_and_count cache_info clk st1 c_line with
      | .error e => .error e
      | .ok (result_cpy, st2) =>
        let result : cache_result :=
          { hit := or_flag result_cpy.hit h, miss := or_flag result_cpy.miss m,
            eviction := or_flag result_cpy.eviction ev }
        .ok { st2 with reported := st2.reported ++ [(c_line, result)] }
  | .INVALID => .error .exit_failure

/-- The `while` loop of cachesim.c lines 109-152 over the parsed records. -/
def main_loop (cache_info : cache_params) (clk : Nat → Int) :
    sim_state → List cache_line → Except abort sim_state
  | st, [] => .ok st
  | st, c_line :: rest =>
    match process_line cache_info clk st c_line with
    | .error e => .error e
    | .ok st1 => main_loop cache_info clk st1 rest

/-- The run of `main` from line 83 on, for the parsed options `s`, `E`, `b` and the
parsed records of the trace file.  The result is the triple that `print_summary`
receives.  The number of blocks is the product `S*E*B` itself; `main_run_int` is the
run with the `int` variable `max_size` of line 103, and the two agree when the
product fits an `int`. -/
def main_run (s E b : Int) (trace : List cache_line) (clk : Nat → Int) :
    Except abort (Int × Int × Int) :=
  if s ≤ 0 ∨ E ≤ 0 ∨ b ≤ 0 then .error .exit_failure
  else
    let cache_info := init_cache_params s.toNat E.toNat b.toNat
    let max_size := cache_info.S * cache_info.E * cache_info.B
    let cache := init_cache max_size
    match main_loop cache_info clk
        { cache := cache, hit_count := 0, miss_count := 0, eviction_count := 0,
          clock_calls := 0, reported := [] } trace with
    | .error e => .error e
    | .ok st => .ok (st.hit_count, st.miss_count, st.eviction_count)

/-! ## Address decomposition as the specification words it -/

/-- Specification value of the tag: `address >> (s+b)` on the 64-bit address. -/
def spec_tag (s b address : Nat) : Nat :=
  address >>> (s + b)

/-- Specification value of the set index: `(address >> b) & (S-1)` with `S = 2^s`,
on the 64-bit address. -/
def spec_set_index (s b address : Nat) : Nat :=
  (address >>> b) &&& (2 ^ s - 1)

/-- The three outcomes a single lookup can have. -/
def single_outcome (r : cache_result) : Prop :=
  r = { hit := 1, miss := 0, eviction := 0 } ∨ r = { hit := 0, miss := 1, eviction := 0 } ∨
    r = { hit := 0, miss := 1, eviction := 1 }

/-! ## Predicates on cache states used in the statements -/

/-- The block makes the loop of lines 120-132 go on to its next iteration: it is
neither a valid block holding `tag` nor an invalid block. -/
def skipped (blk : cache_block) (tag : Int) : Prop :=
  ¬ (blk.v_bit = 1 ∧ blk.tag = tag) ∧ ¬ blk.v_bit = 0

/-- The cache states of a run: the cache that `main` allocates and initialises
(cachesim.c lines 103-104), and every cache that a lookup leaves behind. -/
inductive Reachable (params : cache_params) : List cache_block → Prop where
  | init : Reachable params (init_cache (params.S * params.E * params.B))
  | step (cache : List cache_block) (line : cache_line) (now : Int) (r : cache_result)
      (c : List cache_block) :
      Reachable params cache →
      simulate_cache_read_write cache params line now = some (r, c) →
      Reachable params c

/-- Deciding whether an optional value is present and has a decidable property. -/
instance decidable_some_and {α : Type} (o : Option α) (P : α → Prop) [DecidablePred P] :
    Decidable (∃ a, o = some a ∧ P a) :=
  match o with
  | none => isFalse (fun ⟨_, h, _⟩ => Option.noConfusion h)
  | some a =>
    if h : P a then isTrue ⟨a, rfl, h⟩
    else isFalse (fun ⟨_, h1, h2⟩ => h (Option.some.inj h1 ▸ h2))

/-- The block at index `idx` of the cache exists and has valid bit 1. -/
def valid_at (cache : List cache_block) (idx : Nat) : Prop :=
  ∃ blk, cache[idx]? = some blk ∧ blk.v_bit = 1

instance (cache : List cache_block) (idx : Nat) : Decidable (valid_at cache idx) := by
  unfold valid_at; infer_instance

/-- Some valid line among the `E` lines of the set starting at `set` holds `tag`. -/
def holds_tag (cache : List cache_block) (set E : Nat) (tag : Int) : Prop :=
  ∃ i, i < E ∧ ∃ blk, cache[set + i]? = some blk ∧ (blk.v_bit = 1 ∧ blk.tag = tag)

/-- Some line among the `E` lines of the set starting at `set` is invalid. -/
def has_invalid (cache : List cache_block) (set E : Nat) : Prop :=
  ∃ i, i < E ∧ ∃ blk, cache[set + i]? = some blk ∧ blk.v_bit = 0

/-- All `E` lines of the set starting at `set` are valid. -/
def all_valid (cache : List cache_block) (set E : Nat) : Prop :=
  ∀ i, i < E → ∃ blk, cache[set + i]? = some blk ∧ blk.v_bit = 1

/-- Line `j` is the lowest-index invalid line of the set starting at `set`. -/
def first_invalid (cache : List cache_block) (set j : Nat) : Prop :=
  (∃ blk, cache[set + j]? = some blk ∧ blk.v_bit = 0) ∧
    ∀ i, i < j → ∃ blk, cache[set + i]? = some blk ∧ blk.v_bit ≠ 0

/-- Line `j` of the set starting at `set` has the smallest time stamp among the `E`
lines of the set, and is the lowest-index line with that time stamp. -/
def lru_line (cache : List cache_block) (set E j : Nat) : Prop :=
  ∃ blk, cache[set + j]? = some blk ∧
    (∀ k, k < E → ∃ b, cache[set + k]? = some b ∧ blk.tstamp ≤ b.tstamp) ∧
    (∀ k, k < j → ∃ b, cache[set + k]? = some b ∧ blk.tstamp < b.tstamp)

/-- The cache `after` is `cache` with the tag of the block at `idx` replaced by `tag`
and its time stamp by `now`; the valid bit of the block, which is not 0, and every
other block are unchanged. -/
def overwritten (cache after : List cache_block) (idx : Nat) (tag now : Int) : Prop :=
  ∃ blk, cache[idx]? = some blk ∧ blk.v_bit ≠ 0 ∧
    after = cache.set idx { v_bit := blk.v_bit, tag := tag, tstamp := now } ∧
    after[idx]? = some { v_bit := blk.v_bit, tag := tag, tstamp := now }

instance (cache : List cache_block) (set E : Nat) (tag : Int) :
    Decidable (holds_tag cache set E tag) := by
  unfold holds_tag; infer_instance

instance (cache : List cache_block) (set E : Nat) : Decidable (has_invalid cache set E) := by
  unfold has_invalid; infer_instance

instance (cache : List cache_block) (set E : Nat) : Decidable (all_valid cache set E) := by
  unfold all_valid; infer_instance

instance (cache : List cache_block) (set j : Nat) : Decidable (first_invalid cache set j) := by
  unfold first_invalid; infer_instance

instance (cache : List cache_block) (set E j : Nat) : Decidable (lru_line cache set E j) := by
  unfold lru_line; infer_instance

instance (cache after : List cache_block) (idx : Nat) (tag now : Int) :
    Decidable (overwritten cache after idx tag now) := by
  unfold overwritten; infer_instance

/-! ## Trace records (cachesim.h lines 51-90) -/

/-- The library function `isspace` in the C locale, which the program never changes:
space, `\t`, `\n`, `\v`, `\f` and `\r`. -/
def isspace (ch : Char) : Bool :=
  ch = ' ' || ch = '\t' || ch = '\n' || ch = Char.ofNat 11 || ch = Char.ofNat 12 || ch = '\r'

/-- Lines 69-86: the `switch` on the flag character. -/
def flag_of_char (flag : Char) : FLAG :=
  if flag = 'I' then .I_LOAD
  else if flag = 'L' then .D_LOAD
  else if flag = 'S' then .D_STORE
  else if flag = 'M' then .D_MODIFY
  else .INVALID

/-- Lines 53-61: when the first character is white space, every character moves one
place to the left, which removes the first character and no other.  `line` holds the
characters of the buffer before the terminating NUL. -/
def strip_leading (line : List Char) : List Char :=
  match line with
  | [] => []
  | ch :: rest => if isspace ch then rest else ch :: rest

/-- The function `init_cache_line`.  The directive `%c` of `sscanf` stores the next
character of the input, white space included, and stores nothing when the input is
empty; `uninit_flag` is the value the uninitialised local `flag` holds in that case.
`scan_numbers` gives the values of the locals `address` and `size` after `sscanf` has
gone through the directives ` %llx,%d` on the text that follows the flag character. -/
def init_cache_line (scan_numbers : List Char → Nat × Int) (uninit_flag : Char)
    (line : List Char) : cache_line :=
  let line := strip_leading line
  let flag := match line with
    | [] => uninit_flag
    | ch :: _ => ch
  let numbers := scan_numbers line.tail
  let fl := flag_of_char flag
  { flag := fl, addr := numbers.1, size := numbers.2 }

/-! ## The lookups of a trace -/

/-- The records that the loop of `main` looks up for a trace, in order: a record with
flag `I`, `L` or `S` once, a record with flag `M` twice; an `INVALID` record ends the
run. -/
def lookups_of : List cache_line → List cache_line
  | [] => []
  | c_line :: rest =>
    match c_line.flag with
    | .I_LOAD | .D_LOAD | .D_STORE => c_line :: lookups_of rest
    | .D_MODIFY => c_line :: c_line :: lookups_of rest
    | .INVALID => []

/-- The outcomes of consecutive lookups of the given records, the first of them with
the `n`-th reading of the clock, and the cache they leave. -/
def run_lookups (params : cache_params) (clk : Nat → Int) :
    List cache_block → Nat → List cache_line → Option (List cache_result × List cache_block)
  | cache, _, [] => some ([], cache)
  | cache, n, c_line :: rest =>
    match simulate_cache_read_write cache params c_line (clk n) with
    | none => none
    | some (r, cache1) =>
      match run_lookups params clk cache1 (n + 1) rest with
      | none => none
      | some (rs, cache2) => some (r :: rs, cache2)

/-- The number of records of the trace with flag `I`, `L` or `S`. -/
def n_single (trace : List cache_line) : Nat :=
  trace.countP (fun l => l.flag = .I_LOAD ∨ l.flag = .D_LOAD ∨ l.flag = .D_STORE)

/-- The number of records of the trace with flag `M`. -/
def n_modify (trace : List cache_line) : Nat :=
  trace.countP (fun l => l.flag = .D_MODIFY)

/-- The cache states of a run together with the number of lookups made so far, when
the `k`-th lookup reads `clk k` from the clock. -/
inductive ReachableAt (params : cache_params) (clk : Nat → Int) :
    List cache_block → Nat → Prop where
  | init : ReachableAt params clk (init_cache (params.S * params.E * params.B)) 0
  | step (cache : List cache_block) (n : Nat) (line : cache_line) (r : cache_result)
      (cache1 : List cache_block) :
      ReachableAt params clk cache n →
      simulate_cache_read_write cache params line (clk n) = some (r, cache1) →
      ReachableAt params clk cache1 (n + 1)

/-- Two different lines among the `E` lines of set number `k` are valid and hold
the same tag. -/
def duplicate_tag (cache : List cache_block) (E k : Nat) : Prop :=
  ∃ i, i < E ∧ ∃ j, j < E ∧ i ≠ j ∧
    ∃ bi, cache[k * E + i]? = some bi ∧ bi.v_bit = 1 ∧
      ∃ bj, cache[k * E + j]? = some bj ∧ bj.v_bit = 1 ∧ bi.tag = bj.tag

/-- Two different valid lines among the `E` lines of set number `k` have the same
time stamp. -/
def equal_stamps (cache : List cache_block) (E k : Nat) : Prop :=
  ∃ i, i < E ∧ ∃ j, j < E ∧ i ≠ j ∧
    ∃ bi, cache[k * E + i]? = some bi ∧ bi.v_bit = 1 ∧
      ∃ bj, cache[k * E + j]? = some bj ∧ bj.v_bit = 1 ∧ bi.tstamp = bj.tstamp

/-- Line `j` of the set starting at `set` has a time stamp strictly smaller than
that of every other line of the set, so that no tie decides the choice. -/
def strict_lru_line (cache : List cache_block) (set E j : Nat) : Prop :=
  ∃ blk, cache[set + j]? = some blk ∧
    ∀ k, k < E → k ≠ j → ∃ b, cache[set + k]? = some b ∧ blk.tstamp < b.tstamp

/-- The valid lines of the `E` lines of set number `k` come first: a line before a
valid line is valid. -/
def valid_first (cache : List cache_block) (E k : Nat) : Prop :=
  ∀ i, i < E → ∀ j, j < i → valid_at cache (k * E + i) → valid_at cache (k * E + j)

/-- The logical OR of two flags that are 0 or 1. -/
def logical_or (x y : Int) : Int :=
  if x = 1 ∨ y = 1 then 1 else 0

instance (cache : List cache_block) (E k : Nat) : Decidable (duplicate_tag cache E k) := by
  unfold duplicate_tag; infer_instance

instance (cache : List cache_block) (E k : Nat) : Decidable (equal_stamps cache E k) := by
  unfold equal_stamps; infer_instance

instance (cache : List cache_block) (set E j : Nat) :
    Decidable (strict_lru_line cache set E j) := by
  unfold strict_lru_line; infer_instance

instance (cache : List cache_block) (E k : Nat) : Decidable (valid_first cache E k) := by
  unfold valid_first; infer_instance

/-! ## The line a lookup touches -/

instance (blk : cache_block) (tag : Int) : Decidable (skipped blk tag) := by
  unfold skipped; infer_instance

/-- Line `j` of the set starting at `set` is the line that a lookup of `tag` with
outcome `r` touches: for a hit the first line that stops the loop of lines 120-132,
which is valid and holds `tag`; for a miss without eviction the first line that stops
the loop, which is invalid; for a miss with eviction, where no line stops the loop,
the line that the loop of lines 139-144 selects. -/
def touched_line (cache : List cache_block) (set E : Nat) (tag : Int) (r : cache_result)
    (j : Nat) : Prop :=
  (r = { hit := 1, miss := 0, eviction := 0 } ∧
    (∃ blk, cache[set + j]? = some blk ∧ (blk.v_bit = 1 ∧ blk.tag = tag)) ∧
    ∀ i, i < j → ∃ b, cache[set + i]? = some b ∧ skipped b tag) ∨
  (r = { hit := 0, miss := 1, eviction := 0 } ∧
    (∃ blk, cache[set + j]? = some blk ∧ (¬ (blk.v_bit = 1 ∧ blk.tag = tag) ∧ blk.v_bit = 0)) ∧
    ∀ i, i < j → ∃ b, cache[set + i]? = some b ∧ skipped b tag) ∨
  (r = { hit := 0, miss := 1, eviction := 1 } ∧
    (∀ i, i < E → ∃ b, cache[set + i]? = some b ∧ skipped b tag) ∧
    lru_line cache set E j)

instance (cache : List cache_block) (set E : Nat) (tag : Int) (r : cache_result) (j : Nat) :
    Decidable (touched_line cache set E tag r j) := by
  unfold touched_line; infer_instance

/-- The block that a lookup with outcome `r` leaves in place of `blk`: a hit assigns
the time stamp (line 123), a miss without eviction the tag, the valid bit 1 and the
time stamp (lines 126-128), a miss with eviction the time stamp and the tag
(lines 146-147). -/
def written_block (r : cache_result) (blk : cache_block) (tag now : Int) : cache_block :=
  if r.hit = 1 then { blk with tstamp := now }
  else if r.eviction = 1 then { blk with tstamp := now, tag := tag }
  else { v_bit := 1, tag := tag, tstamp := now }

/-! ## The cache that `main` allocates (cachesim.c lines 100-104) -/

/-- Line 103: the value of the `int` variable `max_size`.  The product is computed in
`int`; when it leaves the range of `int`, which C leaves undefined, the value is the
two's complement wrap that the compiled multiplication gives (0 for
`s=16, E=1, b=16`).  The factors `S` and `B` are the values of `init_cache_params`. -/
def max_size (cache_info : cache_params) : Int :=
  to_int32 ((cache_info.S * cache_info.E * cache_info.B : Nat) : Int)

theorem land_mask_bounds (x : Int) (s : Nat) :
    0 ≤ Int.land x (((1 <<< s : Nat) : Int) - 1) ∧
      Int.land x (((1 <<< s : Nat) : Int) - 1) < 2 ^ s := by
  have hpos : 1 ≤ 2 ^ s := Nat.one_le_two_pow
  have hm : ((1 <<< s : Nat) : Int) - 1 = ((2 ^ s - 1 : Nat) : Int) := by
    rw [Nat.one_shiftLeft]
    omega
  rw [hm]
  cases x with
  | ofNat m =>
    have h1 : Int.land (Int.ofNat m) ((2 ^ s - 1 : Nat) : Int) = ((m &&& (2 ^ s - 1) : Nat) : Int) := rfl
    rw [h1]
    have h2 : m &&& (2 ^ s - 1) ≤ 2 ^ s - 1 := Nat.and_le_right
    constructor
    · exact Int.ofNat_nonneg _
    · have : ((2:Int) ^ s) = ((2 ^ s : Nat) : Int) := by push_cast; rfl
      rw [this]
      omega
  | negSucc m =>
    have h1 : Int.land (Int.negSucc m) ((2 ^ s - 1 : Nat) : Int) = ((Nat.ldiff (2 ^ s - 1) m : Nat) : Int) := rfl
    rw [h1]
    have h2 : Nat.ldiff (2 ^ s - 1) m < 2 ^ s := by
      apply Nat.lt_pow_two_of_testBit
      intro i hi
      rw [Nat.testBit_ldiff, Nat.testBit_two_pow_sub_one]
      have : ¬ i < s := by omega
      simp [this]
    constructor
    · exact Int.ofNat_nonneg _
    · have : ((2:Int) ^ s) = ((2 ^ s : Nat) : Int) := by push_cast; rfl
      rw [this]
      omega

theorem addr_set_index_bounds (params : cache_params) (line : cache_line) :
    0 ≤ addr_set_index params line ∧ addr_set_index params line < 2 ^ params.s := by
  unfold addr_set_index
  exact land_mask_bounds _ _

theorem set_start_bound (params : cache_params) (line : cache_line) :
    set_start params line + params.E ≤ 2 ^ params.s * params.E := by
  obtain ⟨h0, h1⟩ := addr_set_index_bounds params line
  unfold set_start
  have h2 : (addr_set_index params line).toNat < 2 ^ params.s := by
    have : ((2:Int) ^ params.s) = ((2 ^ params.s : Nat) : Int) := by push_cast; rfl
    rw [this] at h1
    omega
  calc (addr_set_index params line).toNat * params.E + params.E
      = ((addr_set_index params line).toNat + 1) * params.E := by ring
    _ ≤ 2 ^ params.s * params.E := Nat.mul_le_mul_right _ h2

theorem land_mask_eq_emod (x : Int) (s : Nat) :
    Int.land x (((1 <<< s : Nat) : Int) - 1) = x % 2 ^ s := by
  have hpos : 1 ≤ 2 ^ s := Nat.one_le_two_pow
  have hm : ((1 <<< s : Nat) : Int) - 1 = ((2 ^ s - 1 : Nat) : Int) := by
    rw [Nat.one_shiftLeft]
    omega
  have hp : ((2:Int) ^ s) = ((2 ^ s : Nat) : Int) := by push_cast; rfl
  rw [hm]
  cases x with
  | ofNat m =>
    have h1 : Int.land (Int.ofNat m) ((2 ^ s - 1 : Nat) : Int) =
        ((m &&& (2 ^ s - 1) : Nat) : Int) := rfl
    rw [h1, Nat.and_pow_two_sub_one_eq_mod, hp]
    exact Int.natCast_mod m (2 ^ s)
  | negSucc m =>
    have h1 : Int.land (Int.negSucc m) ((2 ^ s - 1 : Nat) : Int) =
        ((Nat.ldiff (2 ^ s - 1) m : Nat) : Int) := rfl
    have hr : m % 2 ^ s < 2 ^ s := Nat.mod_lt _ (by omega)
    have h2 : Nat.ldiff (2 ^ s - 1) m = 2 ^ s - (m % 2 ^ s + 1) := by
      apply Nat.eq_of_testBit_eq
      intro i
      rw [Nat.testBit_ldiff, Nat.testBit_two_pow_sub_one, Nat.testBit_two_pow_sub_succ hr,
        Nat.testBit_mod_two_pow]
      by_cases h : i < s <;> simp [h]
    rw [h1, h2]
    have hdm := Nat.div_add_mod m (2 ^ s)
    have hsplit : Int.negSucc m =
        ((2 ^ s - (m % 2 ^ s + 1) : Nat) : Int) + (2:Int) ^ s * (-((m / 2 ^ s : Nat) : Int) - 1) := by
      rw [Int.negSucc_eq, hp, Int.ofNat_sub (by omega)]
      have hdm2 : ((2 ^ s : Nat) : Int) * ((m / 2 ^ s : Nat) : Int) + ((m % 2 ^ s : Nat) : Int)
          = (m : Int) := by exact_mod_cast hdm
      push_cast
      push_cast at hdm2
      linear_combination hdm2
    rw [hsplit, Int.add_mul_emod_self_left, hp]
    rw [Int.emod_eq_of_lt (Int.ofNat_nonneg _) (by omega)]

theorem to_int32_congruent (x : Int) : ∃ q : Int, to_int32 x = x + 2 ^ 32 * q := by
  unfold to_int32
  simp only
  split
  · exact ⟨-(x / 2 ^ 32), by rw [Int.emod_def]; ring⟩
  · exact ⟨-(x / 2 ^ 32) - 1, by rw [Int.emod_def]; ring⟩

/-! ## The two loops of the lookup -/

theorem scan_set_total (cache : List cache_block) (set : Nat) (tag now : Int) :
    ∀ n k, set + k + n ≤ cache.length → ∃ x, scan_set cache set tag now k n = some x := by
  intro n
  induction n with
  | zero => intro k _; exact ⟨none, rfl⟩
  | succ n ih =>
    intro k hk
    have hlt : set + k < cache.length := by omega
    unfold scan_set
    rw [List.getElem?_eq_getElem hlt]
    simp only
    split
    · exact ⟨_, rfl⟩
    · split
      · exact ⟨_, rfl⟩
      · exact ih (k + 1) (by omega)

theorem scan_set_none (cache : List cache_block) (set : Nat) (tag now : Int) :
    ∀ n k, scan_set cache set tag now k n = some none →
      ∀ i, k ≤ i → i < k + n → ∃ blk, cache[set + i]? = some blk ∧ skipped blk tag := by
  intro n
  induction n with
  | zero => intro k _ i h1 h2; omega
  | succ n ih =>
    intro k h i h1 h2
    unfold scan_set at h
    cases hb : cache[set + k]? with
    | none => rw [hb] at h; simp at h
    | some blk =>
      rw [hb] at h
      simp only at h
      split at h
      · simp at h
      · split at h
        · simp at h
        · rename_i hn1 hn2
          by_cases hik : i = k
          · subst hik
            exact ⟨blk, hb, hn1, hn2⟩
          · exact ih (k + 1) h i (by omega) (by omega)

theorem scan_set_some (cache : List cache_block) (set : Nat) (tag now : Int) :
    ∀ n k r c, scan_set cache set tag now k n = some (some (r, c)) →
      ∃ j blk, k ≤ j ∧ j < k + n ∧ cache[set + j]? = some blk ∧
        (∀ i, k ≤ i → i < j → ∃ b, cache[set + i]? = some b ∧ skipped b tag) ∧
        ((blk.v_bit = 1 ∧ blk.tag = tag ∧ r = { hit := 1, miss := 0, eviction := 0 } ∧
            c = cache.set (set + j) { blk with tstamp := now }) ∨
         (¬ (blk.v_bit = 1 ∧ blk.tag = tag) ∧ blk.v_bit = 0 ∧
            r = { hit := 0, miss := 1, eviction := 0 } ∧
            c = cache.set (set + j) { v_bit := 1, tag := tag, tstamp := now })) := by
  intro n
  induction n with
  | zero => intro k r c h; simp [scan_set] at h
  | succ n ih =>
    intro k r c h
    unfold scan_set at h
    cases hb : cache[set + k]? with
    | none => rw [hb] at h; simp at h
    | some blk =>
      rw [hb] at h
      simp only at h
      split at h
      · rename_i hhit
        simp only [Option.some.injEq, Prod.mk.injEq] at h
        refine ⟨k, blk, le_refl _, by omega, hb, ?_, Or.inl ⟨hhit.1, hhit.2, h.1.symm, h.2.symm⟩⟩
        intro i h1 h2; omega
      · split at h
        · rename_i hn1 h0
          simp only [Option.some.injEq, Prod.mk.injEq] at h
          refine ⟨k, blk, le_refl _, by omega, hb, ?_, Or.inr ⟨hn1, h0, h.1.symm, h.2.symm⟩⟩
          intro i h1 h2; omega
        · rename_i hn1 hn2
          obtain ⟨j, blk2, hj1, hj2, hget, hbefore, hcase⟩ := ih (k + 1) r c h
          refine ⟨j, blk2, by omega, by omega, hget, ?_, hcase⟩
          intro i h1 h2
          by_cases hik : i = k
          · subst hik
            exact ⟨blk, hb, hn1, hn2⟩
          · exact hbefore i (by omega) h2

theorem lru_scan_total (cache : List cache_block) (set : Nat) :
    ∀ n i ts idx, set + i + n ≤ cache.length → ∃ j, lru_scan cache set i n ts idx = some j := by
  intro n
  induction n with
  | zero => intro i ts idx _; exact ⟨idx, rfl⟩
  | succ n ih =>
    intro i ts idx hk
    have hlt : set + i < cache.length := by omega
    unfold lru_scan
    rw [List.getElem?_eq_getElem hlt]
    simp only
    split
    · exact ih (i + 1) _ _ (by omega)
    · exact ih (i + 1) _ _ (by omega)

theorem lru_scan_min (cache : List cache_block) (set : Nat) :
    ∀ n i ts idx j, lru_scan cache set i n ts idx = some j →
      (∃ b0, cache[set + idx]? = some b0 ∧ b0.tstamp = ts) →
      (∀ k, k < i → ∃ b, cache[set + k]? = some b ∧ ts ≤ b.tstamp) →
      (∀ k, k < idx → ∃ b, cache[set + k]? = some b ∧ ts < b.tstamp) →
      ∃ blk, cache[set + j]? = some blk ∧ (j < i + n ∨ j = idx) ∧
        (∀ k, k < i + n → ∃ b, cache[set + k]? = some b ∧ blk.tstamp ≤ b.tstamp) ∧
        (∀ k, k < j → ∃ b, cache[set + k]? = some b ∧ blk.tstamp < b.tstamp) := by
  intro n
  induction n with
  | zero =>
    intro i ts idx j h hidx hle hlt
    simp only [lru_scan, Option.some.injEq] at h
    subst h
    obtain ⟨b0, hb0, hts⟩ := hidx
    subst hts
    exact ⟨b0, hb0, Or.inr rfl, fun k hk => hle k (by omega), hlt⟩
  | succ n ih =>
    intro i ts idx j h hidx hle hlt
    unfold lru_scan at h
    cases hb : cache[set + i]? with
    | none => rw [hb] at h; simp at h
    | some blk =>
      rw [hb] at h
      simp only at h
      split at h
      · rename_i hless
        obtain ⟨b, hbj, hj, hall, hbef⟩ := ih (i + 1) blk.tstamp i j h ⟨blk, hb, rfl⟩
          (fun k hk => by
            by_cases hki : k = i
            · subst hki; exact ⟨blk, hb, le_refl _⟩
            · obtain ⟨b, hb1, hb2⟩ := hle k (by omega)
              exact ⟨b, hb1, by omega⟩)
          (fun k hk => by
            obtain ⟨b, hb1, hb2⟩ := hle k hk
            exact ⟨b, hb1, by omega⟩)
        refine ⟨b, hbj, ?_, fun k hk => hall k (by omega), hbef⟩
        rcases hj with hj | hj
        · left; omega
        · left; omega
      · rename_i hnl
        obtain ⟨b, hbj, hj, hall, hbef⟩ := ih (i + 1) ts idx j h hidx
          (fun k hk => by
            by_cases hki : k = i
            · subst hki; exact ⟨blk, hb, by omega⟩
            · exact hle k (by omega))
          hlt
        refine ⟨b, hbj, ?_, fun k hk => hall k (by omega), hbef⟩
        rcases hj with hj | hj
        · left; omega
        · right; exact hj

/-! ## The lookup as a whole -/

theorem scan_set_stop_hit (cache : List cache_block) (set : Nat) (tag now : Int) :
    ∀ n k j blk, k ≤ j → j < k + n →
      (∀ i, k ≤ i → i < j → ∃ b, cache[set + i]? = some b ∧ skipped b tag) →
      cache[set + j]? = some blk → blk.v_bit = 1 → blk.tag = tag →
      scan_set cache set tag now k n =
        some (some ({ hit := 1, miss := 0, eviction := 0 },
          cache.set (set + j) { blk with tstamp := now })) := by
  intro n
  induction n with
  | zero => intro k j blk h1 h2; omega
  | succ n ih =>
    intro k j blk h1 h2 hbefore hget hv ht
    unfold scan_set
    by_cases hjk : j = k
    · subst hjk
      rw [hget]
      simp [hv, ht]
    · obtain ⟨b, hb, hs1, hs2⟩ := hbefore k (le_refl _) (by omega)
      rw [hb]
      simp only
      rw [if_neg hs1, if_neg hs2]
      exact ih (k + 1) j blk (by omega) (by omega)
        (fun i hi1 hi2 => hbefore i (by omega) hi2) hget hv ht

theorem scan_set_stop_fill (cache : List cache_block) (set : Nat) (tag now : Int) :
    ∀ n k j blk, k ≤ j → j < k + n →
      (∀ i, k ≤ i → i < j → ∃ b, cache[set + i]? = some b ∧ skipped b tag) →
      cache[set + j]? = some blk → blk.v_bit = 0 →
      scan_set cache set tag now k n =
        some (some ({ hit := 0, miss := 1, eviction := 0 },
          cache.set (set + j) { v_bit := 1, tag := tag, tstamp := now })) := by
  intro n
  induction n with
  | zero => intro k j blk h1 h2; omega
  | succ n ih =>
    intro k j blk h1 h2 hbefore hget hv
    unfold scan_set
    by_cases hjk : j = k
    · subst hjk
      rw [hget]
      simp [hv]
    · obtain ⟨b, hb, hs1, hs2⟩ := hbefore k (le_refl _) (by omega)
      rw [hb]
      simp only
      rw [if_neg hs1, if_neg hs2]
      exact ih (k + 1) j blk (by omega) (by omega)
        (fun i hi1 hi2 => hbefore i (by omega) hi2) hget hv

theorem simulate_hit_at (cache : List cache_block) (params : cache_params)
    (line : cache_line) (now : Int) (j : Nat) (blk : cache_block) (hj : j < params.E)
    (hbefore : ∀ i, i < j →
      ∃ b, cache[set_start params line + i]? = some b ∧ skipped b (addr_tag params line))
    (hget : cache[set_start params line + j]? = some blk) (hv : blk.v_bit = 1)
    (ht : blk.tag = addr_tag params line) :
    simulate_cache_read_write cache params line now =
      some ({ hit := 1, miss := 0, eviction := 0 },
        cache.set (set_start params line + j) { blk with tstamp := now }) := by
  unfold simulate_cache_read_write
  simp only
  rw [scan_set_stop_hit cache _ _ now params.E 0 j blk (Nat.zero_le _) (by omega)
    (fun i _ hi => hbefore i hi) hget hv ht]

theorem simulate_fill_at (cache : List cache_block) (params : cache_params)
    (line : cache_line) (now : Int) (j : Nat) (blk : cache_block) (hj : j < params.E)
    (hbefore : ∀ i, i < j →
      ∃ b, cache[set_start params line + i]? = some b ∧ skipped b (addr_tag params line))
    (hget : cache[set_start params line + j]? = some blk) (hv : blk.v_bit = 0) :
    simulate_cache_read_write cache params line now =
      some ({ hit := 0, miss := 1, eviction := 0 },
        cache.set (set_start params line + j)
          { v_bit := 1, tag := addr_tag params line, tstamp := now }) := by
  unfold simulate_cache_read_write
  simp only
  rw [scan_set_stop_fill cache _ _ now params.E 0 j blk (Nat.zero_le _) (by omega)
    (fun i _ hi => hbefore i hi) hget hv]

theorem simulate_total (cache : List cache_block) (params : cache_params)
    (line : cache_line) (now : Int)
    (h : set_start params line + max params.E 1 ≤ cache.length) :
    ∃ r c, simulate_cache_read_write cache params line now = some (r, c) := by
  have hE : set_start params line + 0 + params.E ≤ cache.length := by
    have := le_max_left params.E 1
    omega
  have h0 : set_start params line < cache.length := by
    have := le_max_right params.E 1
    omega
  obtain ⟨x, hx⟩ := scan_set_total cache (set_start params line) (addr_tag params line) now
    params.E 0 hE
  unfold simulate_cache_read_write
  simp only
  rw [hx]
  cases x with
  | some rc => exact ⟨rc.1, rc.2, rfl⟩
  | none =>
    simp only
    unfold evict
    rw [List.getElem?_eq_getElem h0]
    simp only
    obtain ⟨j, hj⟩ := lru_scan_total cache (set_start params line) params.E 0
      (cache[set_start params line]).tstamp 0 hE
    rw [hj]
    simp only
    obtain ⟨blk, hblk, -, -, -⟩ := lru_scan_min cache _ _ _ _ _ j hj
      ⟨_, List.getElem?_eq_getElem h0, rfl⟩
      (fun k hk => absurd hk (Nat.not_lt_zero _)) (fun k hk => absurd hk (Nat.not_lt_zero _))
    rw [hblk]
    exact ⟨_, _, rfl⟩

theorem simulate_cases (cache : List cache_block) (params : cache_params)
    (line : cache_line) (now : Int) (r : cache_result) (c : List cache_block)
    (h : simulate_cache_read_write cache params line now = some (r, c)) :
    (∃ j blk, j < params.E ∧ cache[set_start params line + j]? = some blk ∧
      (∀ i, i < j → ∃ b, cache[set_start params line + i]? = some b ∧
        skipped b (addr_tag params line)) ∧
      blk.v_bit = 1 ∧ blk.tag = addr_tag params line ∧
      r = { hit := 1, miss := 0, eviction := 0 } ∧
      c = cache.set (set_start params line + j) { blk with tstamp := now }) ∨
    (∃ j blk, j < params.E ∧ cache[set_start params line + j]? = some blk ∧
      (∀ i, i < j → ∃ b, cache[set_start params line + i]? = some b ∧
        skipped b (addr_tag params line)) ∧
      ¬ (blk.v_bit = 1 ∧ blk.tag = addr_tag params line) ∧ blk.v_bit = 0 ∧
      r = { hit := 0, miss := 1, eviction := 0 } ∧
      c = cache.set (set_start params line + j)
        { v_bit := 1, tag := addr_tag params line, tstamp := now }) ∨
    ((∀ i, i < params.E → ∃ b, cache[set_start params line + i]? = some b ∧
        skipped b (addr_tag params line)) ∧
      r = { hit := 0, miss := 1, eviction := 1 } ∧
      ∃ j blk, (j < params.E ∨ j = 0) ∧ cache[set_start params line + j]? = some blk ∧
        (∀ k, k < params.E →
          ∃ b, cache[set_start params line + k]? = some b ∧ blk.tstamp ≤ b.tstamp) ∧
        (∀ k, k < j →
          ∃ b, cache[set_start params line + k]? = some b ∧ blk.tstamp < b.tstamp) ∧
        c = cache.set (set_start params line + j)
          { blk with tstamp := now, tag := addr_tag params line }) := by
  unfold simulate_cache_read_write at h
  simp only at h
  cases hx : scan_set cache (set_start params line) (addr_tag params line) now 0 params.E with
  | none => rw [hx] at h; simp at h
  | some x =>
    rw [hx] at h
    cases x with
    | some rc =>
      simp only [Option.some.injEq] at h
      subst h
      obtain ⟨j, blk, -, hj, hget, hbefore, hcase⟩ := scan_set_some _ _ _ _ _ _ _ _ hx
      rcases hcase with ⟨hv, ht, hr, hc⟩ | ⟨hn, hv, hr, hc⟩
      · exact Or.inl ⟨j, blk, by omega, hget, fun i hi => hbefore i (Nat.zero_le _) hi,
          hv, ht, hr, hc⟩
      · exact Or.inr (Or.inl ⟨j, blk, by omega, hget,
          fun i hi => hbefore i (Nat.zero_le _) hi, hn, hv, hr, hc⟩)
    | none =>
      simp only at h
      have hskip := scan_set_none _ _ _ _ _ _ hx
      unfold evict at h
      cases h0 : cache[set_start params line]? with
      | none => rw [h0] at h; simp at h
      | some first =>
        rw [h0] at h
        simp only at h
        cases hl : lru_scan cache (set_start params line) 0 params.E first.tstamp 0 with
        | none => rw [hl] at h; simp at h
        | some j =>
          rw [hl] at h
          simp only at h
          obtain ⟨blk, hblk, hj, hall, hbef⟩ := lru_scan_min cache _ _ _ _ _ j hl
            ⟨first, h0, rfl⟩
            (fun k hk => absurd hk (Nat.not_lt_zero _))
            (fun k hk => absurd hk (Nat.not_lt_zero _))
          rw [hblk] at h
          simp only [Option.some.injEq, Prod.mk.injEq] at h
          refine Or.inr (Or.inr ⟨fun i hi => hskip i (Nat.zero_le _) (by omega), h.1.symm,
            j, blk, ?_, hblk, fun k hk => hall k (by omega), hbef, h.2.symm⟩)
          rcases hj with hj | hj
          · left; omega
          · right; exact hj

/-! ## Invariants of the reachable cache states -/

theorem simulate_writes_one (cache : List cache_block) (params : cache_params)
    (line : cache_line) (now : Int) (r : cache_result) (c : List cache_block)
    (h : simulate_cache_read_write cache params line now = some (r, c)) :
    ∃ idx blk nb, cache[idx]? = some blk ∧ c = cache.set idx nb ∧
      (nb.v_bit = blk.v_bit ∨ nb.v_bit = 1) := by
  rcases simulate_cases cache params line now r c h with
    ⟨j, blk, -, hget, -, -, -, -, hc⟩ | ⟨j, blk, -, hget, -, -, -, -, hc⟩ |
    ⟨-, -, j, blk, -, hget, -, -, hc⟩
  · exact ⟨_, blk, _, hget, hc, Or.inl rfl⟩
  · exact ⟨_, blk, _, hget, hc, Or.inr rfl⟩
  · exact ⟨_, blk, _, hget, hc, Or.inl rfl⟩

theorem reachable_length (params : cache_params) (cache : List cache_block)
    (h : Reachable params cache) : cache.length = params.S * params.E * params.B := by
  induction h with
  | init => simp [init_cache]
  | step cache line now r c _ hs ih =>
    obtain ⟨idx, blk, nb, -, hc, -⟩ := simulate_writes_one cache params line now r c hs
    rw [hc, List.length_set, ih]

theorem reachable_v_bit (params : cache_params) (cache : List cache_block)
    (h : Reachable params cache) : ∀ blk, blk ∈ cache → blk.v_bit = 0 ∨ blk.v_bit = 1 := by
  induction h with
  | init =>
    intro blk hb
    have := List.eq_of_mem_replicate hb
    subst this
    exact Or.inl rfl
  | step cache line now r c _ hs ih =>
    obtain ⟨idx, blk, nb, hget, hc, hnb⟩ := simulate_writes_one cache params line now r c hs
    intro b hb
    rw [hc] at hb
    rcases List.mem_or_eq_of_mem_set hb with hb | hb
    · exact ih b hb
    · subst hb
      rcases hnb with hnb | hnb
      · rw [hnb]; exact ih blk (List.getElem?_mem hget)
      · exact Or.inr hnb

theorem reachable_in_bounds (s E b : Nat) (cache : List cache_block)
    (h : Reachable (init_cache_params s E b) cache) (line : cache_line) :
    set_start (init_cache_params s E b) line + E ≤ cache.length := by
  rw [reachable_length _ _ h]
  have h1 := set_start_bound (init_cache_params s E b) line
  have h2 : (init_cache_params s E b).S = 2 ^ s := by simp [init_cache_params, Nat.one_shiftLeft]
  have h3 : (init_cache_params s E b).B = 2 ^ b := by simp [init_cache_params, Nat.one_shiftLeft]
  have h4 : (init_cache_params s E b).E = E := rfl
  have h5 : (init_cache_params s E b).s = s := rfl
  rw [h4, h5] at h1
  rw [h2, h3, h4]
  have hb : 1 ≤ 2 ^ b := Nat.one_le_two_pow
  calc set_start (init_cache_params s E b) line + E ≤ 2 ^ s * E := h1
    _ = 2 ^ s * E * 1 := by ring
    _ ≤ 2 ^ s * E * 2 ^ b := Nat.mul_le_mul_left _ hb

theorem set_line_unique (E k i k0 j0 : Nat) (hi : i < E) (hj : j0 < E)
    (h : k * E + i = k0 * E + j0) : k = k0 ∧ i = j0 := by
  have hE : 0 < E := by omega
  have h1 := (Nat.div_mod_unique (a := k * E + i) (d := k) (c := i) hE).2
    ⟨by rw [Nat.mul_comm E k]; omega, hi⟩
  have h2 := (Nat.div_mod_unique (a := k * E + i) (d := k0) (c := j0) hE).2
    ⟨by rw [Nat.mul_comm E k0]; omega, hj⟩
  exact ⟨h1.1.symm.trans h2.1, h1.2.symm.trans h2.2⟩

theorem valid_at_set_same (cache : List cache_block) (idx m : Nat) (ob nb : cache_block)
    (hget : cache[idx]? = some ob) (hv : nb.v_bit = ob.v_bit) :
    valid_at (cache.set idx nb) m ↔ valid_at cache m := by
  have hlt : idx < cache.length := by
    by_contra hge
    rw [List.getElem?_eq_none (by omega)] at hget
    simp at hget
  unfold valid_at
  by_cases hm : m = idx
  · subst hm
    rw [List.getElem?_set_self hlt, hget]
    simp [hv]
  · rw [List.getElem?_set_ne (fun h => hm h.symm)]

theorem valid_at_set_other (cache : List cache_block) (idx m : Nat) (nb : cache_block)
    (hm : m ≠ idx) : valid_at (cache.set idx nb) m ↔ valid_at cache m := by
  unfold valid_at
  rw [List.getElem?_set_ne (fun h => hm h.symm)]

theorem reachable_valid_run (params : cache_params) (cache : List cache_block)
    (h : Reachable params cache) :
    ∀ k i j, j < i → i < params.E → valid_at cache (k * params.E + i) →
      valid_at cache (k * params.E + j) := by
  induction h with
  | init =>
    intro k i j _ _ hv
    obtain ⟨blk, hget, hv⟩ := hv
    have hmem := List.getElem?_mem hget
    have := List.eq_of_mem_replicate hmem
    subst this
    simp at hv
  | step cache line now r c hr hs ih =>
    have hbit := reachable_v_bit params cache hr
    intro k i j hji hiE hv
    rcases simulate_cases cache params line now r c hs with
      ⟨j0, blk, -, hget, -, -, -, -, hc⟩ | ⟨j0, blk, hj0, hget, hbefore, -, -, -, hc⟩ |
      ⟨-, -, j0, blk, -, hget, -, -, hc⟩
    · subst hc
      rw [valid_at_set_same cache _ _ blk { blk with tstamp := now } hget rfl] at hv ⊢
      exact ih k i j hji hiE hv
    · subst hc
      have hlt : set_start params line + j0 < cache.length := by
        by_contra hge
        rw [List.getElem?_eq_none (by omega)] at hget
        simp at hget
      by_cases hj : k * params.E + j = set_start params line + j0
      · rw [hj]
        exact ⟨_, List.getElem?_set_self hlt, rfl⟩
      · rw [valid_at_set_other cache _ _ _ hj]
        by_cases hi : k * params.E + i = set_start params line + j0
        · have hu := set_line_unique params.E k i _ j0 hiE hj0 hi
          obtain ⟨b, hb, hskip⟩ := hbefore j (by omega)
          have hkE : k * params.E = set_start params line := by
            rw [hu.1]; rfl
          rw [hkE]
          refine ⟨b, hb, ?_⟩
          rcases hbit b (List.getElem?_mem hb) with h0 | h1
          · exact absurd h0 hskip.2
          · exact h1
        · rw [valid_at_set_other cache _ _ _ hi] at hv
          exact ih k i j hji hiE hv
    · subst hc
      rw [valid_at_set_same cache _ _ blk
        { blk with tstamp := now, tag := addr_tag params line } hget rfl] at hv ⊢
      exact ih k i j hji hiE hv

/-! ## One record of the simulation loop -/

theorem set_start_addr (params : cache_params) (l1 l2 : cache_line) (h : l1.addr = l2.addr) :
    set_start params l1 = set_start params l2 := by
  simp only [set_start, addr_set_index, h]

theorem addr_tag_addr (params : cache_params) (l1 l2 : cache_line) (h : l1.addr = l2.addr) :
    addr_tag params l1 = addr_tag params l2 := by
  simp only [addr_tag, addr_set_index, h]

theorem getElem?_lt_length (cache : List cache_block) (idx : Nat) (blk : cache_block)
    (h : cache[idx]? = some blk) : idx < cache.length := by
  by_contra hge
  rw [List.getElem?_eq_none (by omega)] at h
  simp at h

theorem lookup_and_count_ok (cache_info : cache_params) (clk : Nat → Int) (st : sim_state)
    (c_line : cache_line) (r : cache_result) (c : List cache_block)
    (h : simulate_cache_read_write st.cache cache_info c_line (clk st.clock_calls) = some (r, c)) :
    lookup_and_count cache_info clk st c_line =
      .ok (r, { cache := c, hit_count := st.hit_count + r.hit,
                miss_count := st.miss_count + r.miss,
                eviction_count := st.eviction_count + r.eviction,
                clock_calls := st.clock_calls + 1, reported := st.reported }) := by
  simp [lookup_and_count, h, eval_cache]

theorem process_line_single (cache_info : cache_params) (clk : Nat → Int) (st : sim_state)
    (c_line : cache_line) (r : cache_result) (c : List cache_block)
    (hflag : c_line.flag = .I_LOAD ∨ c_line.flag = .D_LOAD ∨ c_line.flag = .D_STORE)
    (h : simulate_cache_read_write st.cache cache_info c_line (clk st.clock_calls) = some (r, c)) :
    process_line cache_info clk st c_line =
      .ok { cache := c, hit_count := st.hit_count + r.hit,
            miss_count := st.miss_count + r.miss,
            eviction_count := st.eviction_count + r.eviction,
            clock_calls := st.clock_calls + 1,
            reported := st.reported ++ [(c_line, r)] } := by
  rcases hflag with hf | hf | hf <;>
    simp [process_line, hf, lookup_and_count_ok cache_info clk st c_line r c h]

theorem process_line_modify (cache_info : cache_params) (clk : Nat → Int) (st : sim_state)
    (c_line : cache_line) (r1 r2 : cache_result) (c1 c2 : List cache_block)
    (hflag : c_line.flag = .D_MODIFY)
    (h1 : simulate_cache_read_write st.cache cache_info c_line (clk st.clock_calls)
      = some (r1, c1))
    (h2 : simulate_cache_read_write c1 cache_info c_line (clk (st.clock_calls + 1))
      = some (r2, c2)) :
    process_line cache_info clk st c_line =
      .ok { cache := c2, hit_count := st.hit_count + r1.hit + r2.hit,
            miss_count := st.miss_count + r1.miss + r2.miss,
            eviction_count := st.eviction_count + r1.eviction + r2.eviction,
            clock_calls := st.clock_calls + 1 + 1,
            reported := st.reported ++
              [(c_line, { hit := or_flag r2.hit r1.hit, miss := or_flag r2.miss r1.miss,
                          eviction := or_flag r2.eviction r1.eviction })] } := by
  have e1 := lookup_and_count_ok cache_info clk st c_line r1 c1 h1
  have e2 := lookup_and_count_ok cache_info clk
    { cache := c1, hit_count := st.hit_count + r1.hit,
      miss_count := st.miss_count + r1.miss,
      eviction_count := st.eviction_count + r1.eviction,
      clock_calls := st.clock_calls + 1, reported := st.reported } c_line r2 c2 h2
  simp [process_line, hflag, e1, e2]

theorem fresh_then_same_address (params : cache_params) (cache : List cache_block)
    (l1 l2 : cache_line) (now1 now2 : Int) (hE : 0 < params.E)
    (haddr : l1.addr = l2.addr)
    (hget : cache[set_start params l1]? = some { v_bit := 0, tag := 0, tstamp := 0 }) :
    simulate_cache_read_write cache params l1 now1 =
        some ({ hit := 0, miss := 1, eviction := 0 },
          cache.set (set_start params l1)
            { v_bit := 1, tag := addr_tag params l1, tstamp := now1 }) ∧
      simulate_cache_read_write
          (cache.set (set_start params l1)
            { v_bit := 1, tag := addr_tag params l1, tstamp := now1 }) params l2 now2 =
        some ({ hit := 1, miss := 0, eviction := 0 },
          (cache.set (set_start params l1)
            { v_bit := 1, tag := addr_tag params l1, tstamp := now1 }).set
            (set_start params l1)
            { v_bit := 1, tag := addr_tag params l1, tstamp := now2 }) := by
  have hlt := getElem?_lt_length cache _ _ hget
  constructor
  · exact simulate_fill_at cache params l1 now1 0 _ hE
      (fun i hi => absurd hi (Nat.not_lt_zero _)) hget rfl
  · have h := simulate_hit_at
      (cache.set (set_start params l1) { v_bit := 1, tag := addr_tag params l1, tstamp := now1 })
      params l2 now2 0 { v_bit := 1, tag := addr_tag params l1, tstamp := now1 } hE
      (fun i hi => absurd hi (Nat.not_lt_zero _))
      (by rw [← set_start_addr params l1 l2 haddr]; exact List.getElem?_set_self hlt)
      rfl (addr_tag_addr params l1 l2 haddr)
    rw [h, ← set_start_addr params l1 l2 haddr]
    rfl

theorem getElem?_set_other (cache : List cache_block) (idx m : Nat) (nb : cache_block)
    (hm : m ≠ idx) : (cache.set idx nb)[m]? = cache[m]? :=
  List.getElem?_set_ne (fun h => hm h.symm)

theorem second_lookup_hits (cache : List cache_block) (params : cache_params)
    (line : cache_line) (now : Int) (j : Nat) (nb : cache_block) (hj : j < params.E)
    (hlt : set_start params line + j < cache.length)
    (hbefore : ∀ i, i < j →
      ∃ b, cache[set_start params line + i]? = some b ∧ skipped b (addr_tag params line))
    (hv : nb.v_bit = 1) (ht : nb.tag = addr_tag params line) :
    simulate_cache_read_write (cache.set (set_start params line + j) nb) params line now =
      some ({ hit := 1, miss := 0, eviction := 0 },
        (cache.set (set_start params line + j) nb).set (set_start params line + j)
          { nb with tstamp := now }) := by
  apply simulate_hit_at _ params line now j nb hj _ (List.getElem?_set_self hlt) hv ht
  intro i hi
  rw [getElem?_set_other cache _ _ nb (by omega)]
  exact hbefore i hi

/-! ## Frame and invariants of a lookup -/

theorem simulate_addr (cache : List cache_block) (params : cache_params) (l1 l2 : cache_line)
    (now : Int) (h : l1.addr = l2.addr) :
    simulate_cache_read_write cache params l1 now =
      simulate_cache_read_write cache params l2 now := by
  unfold simulate_cache_read_write
  rw [set_start_addr params l1 l2 h, addr_tag_addr params l1 l2 h]

theorem simulate_written (cache : List cache_block) (params : cache_params)
    (line : cache_line) (now : Int) (r : cache_result) (c1 : List cache_block)
    (hE : 0 < params.E)
    (h : simulate_cache_read_write cache params line now = some (r, c1)) :
    ∃ j blk nb, j < params.E ∧ cache[set_start params line + j]? = some blk ∧
      c1 = cache.set (set_start params line + j) nb ∧
      (∀ i, i < j → ∃ b, cache[set_start params line + i]? = some b ∧
        skipped b (addr_tag params line)) ∧
      nb.tag = addr_tag params line ∧ nb.tstamp = now ∧
      ((blk.v_bit = 1 ∧ blk.tag = addr_tag params line ∧ nb.v_bit = 1 ∧
          r = { hit := 1, miss := 0, eviction := 0 }) ∨
        (blk.v_bit = 0 ∧ nb.v_bit = 1 ∧ r = { hit := 0, miss := 1, eviction := 0 }) ∨
        ((∀ i, i < params.E → ∃ b, cache[set_start params line + i]? = some b ∧
            skipped b (addr_tag params line)) ∧
          nb.v_bit = blk.v_bit ∧ r = { hit := 0, miss := 1, eviction := 1 })) := by
  rcases simulate_cases cache params line now r c1 h with
    ⟨j, blk, hj, hget, hbefore, hv, ht, hr, hc⟩ | ⟨j, blk, hj, hget, hbefore, -, hv, hr, hc⟩ |
    ⟨hall, hr, j, blk, hj, hget, -, -, hc⟩
  · exact ⟨j, blk, _, hj, hget, hc, hbefore, ht, rfl, Or.inl ⟨hv, ht, hv, hr⟩⟩
  · exact ⟨j, blk, _, hj, hget, hc, hbefore, rfl, rfl, Or.inr (Or.inl ⟨hv, rfl, hr⟩)⟩
  · have hjE : j < params.E := by
      rcases hj with hj | hj
      · exact hj
      · rw [hj]; exact hE
    exact ⟨j, blk, _, hjE, hget, hc, fun i hi => hall i (by omega), rfl, rfl,
      Or.inr (Or.inr ⟨hall, rfl, hr⟩)⟩

theorem valid_at_set_keeps (cache : List cache_block) (idx m : Nat) (blk nb : cache_block)
    (hget : cache[idx]? = some blk) (hnb : nb.v_bit = blk.v_bit ∨ nb.v_bit = 1)
    (hv : valid_at cache m) : valid_at (cache.set idx nb) m := by
  by_cases hm : m = idx
  · subst hm
    refine ⟨nb, List.getElem?_set_self (getElem?_lt_length _ _ _ hget), ?_⟩
    rcases hnb with h | h
    · obtain ⟨b, hb, hb1⟩ := hv
      have : b = blk := Option.some.inj (hb.symm.trans hget)
      subst this
      rw [h, hb1]
    · exact h
  · exact (valid_at_set_other cache idx m nb hm).2 hv

theorem simulate_keeps_valid (cache : List cache_block) (params : cache_params)
    (line : cache_line) (now : Int) (r : cache_result) (c1 : List cache_block)
    (h : simulate_cache_read_write cache params line now = some (r, c1)) (m : Nat)
    (hv : valid_at cache m) : valid_at c1 m := by
  obtain ⟨idx, blk, nb, hget, hc, hnb⟩ := simulate_writes_one cache params line now r c1 h
  rw [hc]
  exact valid_at_set_keeps cache idx m blk nb hget hnb hv

theorem second_lookup_after (cache : List cache_block) (params : cache_params)
    (l1 l2 : cache_line) (now1 now2 : Int) (r1 : cache_result) (c1 : List cache_block)
    (hE : 0 < params.E) (haddr : l1.addr = l2.addr)
    (hbits : ∀ blk, blk ∈ cache → blk.v_bit = 0 ∨ blk.v_bit = 1)
    (h1 : simulate_cache_read_write cache params l1 now1 = some (r1, c1)) :
    ∃ c2, simulate_cache_read_write c1 params l2 now2 =
      some ({ hit := 1, miss := 0, eviction := 0 }, c2) := by
  rw [← simulate_addr c1 params l1 l2 now2 haddr]
  rcases simulate_cases cache params l1 now1 r1 c1 h1 with
    ⟨j2, blk2, hj2, hget2, hbefore2, hv2, ht2, -, hc2⟩ |
    ⟨j2, blk2, hj2, hget2, hbefore2, -, -, -, hc2⟩ |
    ⟨hall, -, j2, blk2, hj2, hget2, -, -, hc2⟩
  · rw [hc2]
    exact ⟨_, second_lookup_hits cache params l1 now2 j2 _ hj2
      (getElem?_lt_length _ _ _ hget2) hbefore2 hv2 ht2⟩
  · rw [hc2]
    exact ⟨_, second_lookup_hits cache params l1 now2 j2 _ hj2
      (getElem?_lt_length _ _ _ hget2) hbefore2 rfl rfl⟩
  · have hjE : j2 < params.E := by
      rcases hj2 with hj2 | hj2
      · exact hj2
      · rw [hj2]; exact hE
    obtain ⟨b0, hb0, hskip⟩ := hall j2 hjE
    have hbb : b0 = blk2 := Option.some.inj (hb0.symm.trans hget2)
    subst hbb
    have hv1 : b0.v_bit = 1 := by
      rcases hbits b0 (List.getElem?_mem hget2) with h0 | h1
      · exact absurd h0 hskip.2
      · exact h1
    rw [hc2]
    exact ⟨_, second_lookup_hits cache params l1 now2 j2
      { b0 with tstamp := now1, tag := addr_tag params l1 } hjE
      (getElem?_lt_length _ _ _ hget2) (fun i hi => hall i (by omega)) hv1 rfl⟩

theorem same_fields_of_set (cache : List cache_block) (idx m : Nat) (blk nb b : cache_block)
    (hget : cache[idx]? = some blk) (hv : nb.v_bit = blk.v_bit) (ht : nb.tag = blk.tag)
    (hb : (cache.set idx nb)[m]? = some b) :
    ∃ b0, cache[m]? = some b0 ∧ b0.v_bit = b.v_bit ∧ b0.tag = b.tag := by
  by_cases hm : m = idx
  · subst hm
    rw [List.getElem?_set_self (getElem?_lt_length _ _ _ hget)] at hb
    have : nb = b := Option.some.inj hb
    subst this
    exact ⟨blk, hget, hv.symm, ht.symm⟩
  · rw [getElem?_set_other cache idx m nb hm] at hb
    exact ⟨b, hb, rfl, rfl⟩

theorem no_second_holder (params : cache_params) (cache : List cache_block)
    (hr : Reachable params cache) (line : cache_line) (j0 : Nat) (blk : cache_block)
    (hget : cache[set_start params line + j0]? = some blk)
    (hbefore : ∀ i, i < j0 → ∃ b, cache[set_start params line + i]? = some b ∧
      skipped b (addr_tag params line))
    (hcase : blk.v_bit = 0 ∨ ∀ i, i < params.E →
      ∃ b, cache[set_start params line + i]? = some b ∧ skipped b (addr_tag params line))
    (j : Nat) (hj : j < params.E) (hne : j ≠ j0) (bj : cache_block)
    (hbj : cache[set_start params line + j]? = some bj) (hvj : bj.v_bit = 1)
    (htj : bj.tag = addr_tag params line) : False := by
  rcases hcase with h0 | hall
  · rcases Nat.lt_or_gt_of_ne hne with hlt | hgt
    · obtain ⟨b, hb, hskip⟩ := hbefore j hlt
      have : b = bj := Option.some.inj (hb.symm.trans hbj)
      subst this
      exact hskip.1 ⟨hvj, htj⟩
    · obtain ⟨b, hb, hb1⟩ := reachable_valid_run params cache hr
        (addr_set_index params line).toNat j j0 hgt hj ⟨bj, hbj, hvj⟩
      have : b = blk := Option.some.inj (hb.symm.trans hget)
      subst this
      rw [h0] at hb1
      exact absurd hb1 (by decide)
  · obtain ⟨b, hb, hskip⟩ := hall j hj
    have : b = bj := Option.some.inj (hb.symm.trans hbj)
    subst this
    exact hskip.1 ⟨hvj, htj⟩

/-! ## The simulation loop -/

theorem simulate_outcome (cache : List cache_block) (params : cache_params)
    (line : cache_line) (now : Int) (r : cache_result) (c1 : List cache_block)
    (h : simulate_cache_read_write cache params line now = some (r, c1)) :
    single_outcome r := by
  rcases simulate_cases cache params line now r c1 h with
    ⟨_, _, _, _, _, _, _, hr, _⟩ | ⟨_, _, _, _, _, _, _, hr, _⟩ | ⟨_, hr, _⟩ <;>
  · subst hr
    simp [single_outcome]

theorem reachable_lookup (s E b : Nat) (hE : 0 < E) (cache : List cache_block)
    (hr : Reachable (init_cache_params s E b) cache) (line : cache_line) (now : Int) :
    ∃ r c1, simulate_cache_read_write cache (init_cache_params s E b) line now = some (r, c1) ∧
      Reachable (init_cache_params s E b) c1 ∧ single_outcome r := by
  have hb := reachable_in_bounds s E b _ hr line
  have hmax : max (init_cache_params s E b).E 1 = E := max_eq_left hE
  obtain ⟨r, c1, h1⟩ := simulate_total cache (init_cache_params s E b) line now
    (by rw [hmax]; exact hb)
  exact ⟨r, c1, h1, Reachable.step cache line now r c1 hr h1, simulate_outcome _ _ _ _ _ _ h1⟩

theorem or_flag_bits (x y : Int) (hx : x = 0 ∨ x = 1) (hy : y = 0 ∨ y = 1) :
    or_flag y x = logical_or x y := by
  rcases hx with hx | hx <;> rcases hy with hy | hy <;> subst hx <;> subst hy <;> decide

theorem single_outcome_bits (r : cache_result) (h : single_outcome r) :
    (r.hit = 0 ∨ r.hit = 1) ∧ (r.miss = 0 ∨ r.miss = 1) ∧ (r.eviction = 0 ∨ r.eviction = 1) ∧
      r.hit + r.miss = 1 := by
  rcases h with h | h | h <;> subst h <;> simp

theorem main_loop_append (cache_info : cache_params) (clk : Nat → Int) :
    ∀ (pre rest : List cache_line) (st : sim_state),
      main_loop cache_info clk st (pre ++ rest) =
        match main_loop cache_info clk st pre with
        | .error e => .error e
        | .ok st1 => main_loop cache_info clk st1 rest := by
  intro pre
  induction pre with
  | nil => intro rest st; rfl
  | cons l pre ih =>
    intro rest st
    simp only [List.cons_append, main_loop]
    cases process_line cache_info clk st l with
    | error e => rfl
    | ok st1 => exact ih rest st1

theorem lookups_of_length (trace : List cache_line)
    (hvalid : ∀ l, l ∈ trace → l.flag ≠ .INVALID) :
    (lookups_of trace).length = n_single trace + 2 * n_modify trace := by
  induction trace with
  | nil => rfl
  | cons l rest ih =>
    have ih2 := ih (fun x hx => hvalid x (List.mem_cons_of_mem l hx))
    have hl := hvalid l (List.mem_cons_self l rest)
    cases hf : l.flag with
    | I_LOAD => simp [lookups_of, n_single, n_modify, hf, List.countP_cons] at ih2 ⊢; omega
    | D_LOAD => simp [lookups_of, n_single, n_modify, hf, List.countP_cons] at ih2 ⊢; omega
    | D_STORE => simp [lookups_of, n_single, n_modify, hf, List.countP_cons] at ih2 ⊢; omega
    | D_MODIFY => simp [lookups_of, n_single, n_modify, hf, List.countP_cons] at ih2 ⊢; omega
    | INVALID => exact absurd hf hl

theorem outcome_sums (outs : List cache_result) (h : ∀ r, r ∈ outs → single_outcome r) :
    (outs.map cache_result.hit).sum + (outs.map cache_result.miss).sum = outs.length := by
  induction outs with
  | nil => rfl
  | cons r rest ih =>
    have h1 := (single_outcome_bits r (h r (List.mem_cons_self r rest))).2.2.2
    have h2 := ih (fun x hx => h x (List.mem_cons_of_mem r hx))
    simp only [List.map_cons, List.sum_cons, List.length_cons]
    push_cast
    linarith

theorem main_loop_lookups (s E b : Nat) (hE : 0 < E) (clk : Nat → Int) :
    ∀ (trace : List cache_line) (st : sim_state),
      (∀ l, l ∈ trace → l.flag ≠ .INVALID) →
      Reachable (init_cache_params s E b) st.cache →
      ∃ outs st1,
        run_lookups (init_cache_params s E b) clk st.cache st.clock_calls (lookups_of trace)
          = some (outs, st1.cache) ∧
        main_loop (init_cache_params s E b) clk st trace = .ok st1 ∧
        Reachable (init_cache_params s E b) st1.cache ∧
        st1.hit_count = st.hit_count + (outs.map cache_result.hit).sum ∧
        st1.miss_count = st.miss_count + (outs.map cache_result.miss).sum ∧
        st1.eviction_count = st.eviction_count + (outs.map cache_result.eviction).sum ∧
        st1.clock_calls = st.clock_calls + outs.length ∧
        outs.length = (lookups_of trace).length ∧
        ∀ r, r ∈ outs → single_outcome r := by
  intro trace
  induction trace with
  | nil =>
    intro st _ hr
    exact ⟨[], st, rfl, rfl, hr, by simp, by simp, by simp, by simp, rfl, by simp⟩
  | cons l rest ih =>
    intro st hvalid hr
    have hrest : ∀ x, x ∈ rest → x.flag ≠ .INVALID :=
      fun x hx => hvalid x (List.mem_cons_of_mem l hx)
    have hl := hvalid l (List.mem_cons_self l rest)
    obtain ⟨r1, c1, h1, hr1, ho1⟩ := reachable_lookup s E b hE st.cache hr l (clk st.clock_calls)
    by_cases hm : l.flag = .D_MODIFY
    · obtain ⟨r2, c2, h2, hr2, ho2⟩ := reachable_lookup s E b hE c1 hr1 l
        (clk (st.clock_calls + 1))
      have hp := process_line_modify _ clk st l r1 r2 c1 c2 hm h1 h2
      obtain ⟨outs, st1, hrun, hloop, hreach, hh, hmi, hev, hcl, hlen, hall⟩ :=
        ih { cache := c2, hit_count := st.hit_count + r1.hit + r2.hit,
             miss_count := st.miss_count + r1.miss + r2.miss,
             eviction_count := st.eviction_count + r1.eviction + r2.eviction,
             clock_calls := st.clock_calls + 1 + 1,
             reported := st.reported ++
               [(l, { hit := or_flag r2.hit r1.hit, miss := or_flag r2.miss r1.miss,
                      eviction := or_flag r2.eviction r1.eviction })] } hrest hr2
      refine ⟨r1 :: r2 :: outs, st1, ?_, ?_, hreach, ?_, ?_, ?_, ?_, ?_, ?_⟩
      · simp only [lookups_of, hm, run_lookups, h1, h2]
        simp only at hrun
        rw [hrun]
      · simp only [main_loop, hp]
        exact hloop
      · rw [hh]; simp only [List.map_cons, List.sum_cons]; ring
      · rw [hmi]; simp only [List.map_cons, List.sum_cons]; ring
      · rw [hev]; simp only [List.map_cons, List.sum_cons]; ring
      · rw [hcl]; simp only [List.length_cons]; omega
      · simp only [lookups_of, hm, List.length_cons, hlen]
      · intro r hrm
        rcases List.mem_cons.1 hrm with h | h
        · rw [h]; exact ho1
        · rcases List.mem_cons.1 h with h | h
          · rw [h]; exact ho2
          · exact hall r h
    · have hsingle : l.flag = .I_LOAD ∨ l.flag = .D_LOAD ∨ l.flag = .D_STORE := by
        cases hf : l.flag <;> simp_all
      have hp := process_line_single _ clk st l r1 c1 hsingle h1
      obtain ⟨outs, st1, hrun, hloop, hreach, hh, hmi, hev, hcl, hlen, hall⟩ :=
        ih { cache := c1, hit_count := st.hit_count + r1.hit,
             miss_count := st.miss_count + r1.miss,
             eviction_count := st.eviction_count + r1.eviction,
             clock_calls := st.clock_calls + 1,
             reported := st.reported ++ [(l, r1)] } hrest hr1
      have hlk : lookups_of (l :: rest) = l :: lookups_of rest := by
        rcases hsingle with hf | hf | hf <;> simp [lookups_of, hf]
      refine ⟨r1 :: outs, st1, ?_, ?_, hreach, ?_, ?_, ?_, ?_, ?_, ?_⟩
      · simp only [hlk, run_lookups, h1]
        simp only at hrun
        rw [hrun]
      · simp only [main_loop, hp]
        exact hloop
      · rw [hh]; simp only [List.map_cons, List.sum_cons]; ring
      · rw [hmi]; simp only [List.map_cons, List.sum_cons]; ring
      · rw [hev]; simp only [List.map_cons, List.sum_cons]; ring
      · rw [hcl]; simp only [List.length_cons]; omega
      · simp only [hlk, List.length_cons, hlen]
      · intro r hrm
        rcases List.mem_cons.1 hrm with h | h
        · rw [h]; exact ho1
        · exact hall r h

theorem process_line_invalid (cache_info : cache_params) (clk : Nat → Int) (st : sim_state)
    (c_line : cache_line) (hflag : c_line.flag = .INVALID) :
    process_line cache_info clk st c_line = .error .exit_failure := by
  simp [process_line, hflag]

theorem lookups_of_before_invalid (pre post : List cache_line) (bad : cache_line)
    (hbad : bad.flag = .INVALID) :
    lookups_of (pre ++ bad :: post) = lookups_of pre := by
  induction pre with
  | nil => simp [lookups_of, hbad]
  | cons l rest ih =>
    cases hf : l.flag <;> simp [lookups_of, hf, ih]

/-! ## Time stamps under a strictly increasing clock -/

theorem simulate_stamps_one (cache : List cache_block) (params : cache_params)
    (line : cache_line) (now : Int) (r : cache_result) (c1 : List cache_block)
    (h : simulate_cache_read_write cache params line now = some (r, c1)) :
    ∃ idx blk nb, cache[idx]? = some blk ∧ c1 = cache.set idx nb ∧ nb.tstamp = now := by
  rcases simulate_cases cache params line now r c1 h with
    ⟨j, blk, -, hget, -, -, -, -, hc⟩ | ⟨j, blk, -, hget, -, -, -, -, hc⟩ |
    ⟨-, -, j, blk, -, hget, -, -, hc⟩
  · exact ⟨_, blk, _, hget, hc, rfl⟩
  · exact ⟨_, blk, _, hget, hc, rfl⟩
  · exact ⟨_, blk, _, hget, hc, rfl⟩

theorem reachable_at_reachable (params : cache_params) (clk : Nat → Int)
    (cache : List cache_block) (n : Nat) (h : ReachableAt params clk cache n) :
    Reachable params cache := by
  induction h with
  | init => exact Reachable.init
  | step cache n line r cache1 _ hs ih => exact Reachable.step cache line (clk n) r cache1 ih hs

theorem reachable_at_stamps (params : cache_params) (clk : Nat → Int) (hclk : StrictMono clk)
    (cache : List cache_block) (n : Nat) (h : ReachableAt params clk cache n) :
    (∀ (idx : Nat) (blk : cache_block), cache[idx]? = some blk → blk.v_bit = 1 → ∃ k, k < n ∧ blk.tstamp = clk k) ∧
    (∀ (i1 i2 : Nat) (b1 b2 : cache_block), i1 ≠ i2 → cache[i1]? = some b1 → b1.v_bit = 1 →
      cache[i2]? = some b2 → b2.v_bit = 1 → b1.tstamp ≠ b2.tstamp) := by
  induction h with
  | init =>
    constructor
    · intro idx blk hget hv
      have := List.eq_of_mem_replicate (List.getElem?_mem hget)
      subst this
      simp at hv
    · intro i1 i2 b1 b2 _ hget hv
      have := List.eq_of_mem_replicate (List.getElem?_mem hget)
      subst this
      simp at hv
  | step cache n line r cache1 hr hs ih =>
    obtain ⟨ih1, ih2⟩ := ih
    obtain ⟨idx, blk, nb, hget, hc, hts⟩ := simulate_stamps_one cache params line (clk n) r cache1 hs
    have hlen := getElem?_lt_length _ _ _ hget
    subst hc
    have hold : ∀ (m : Nat) (b0 : cache_block), m ≠ idx → (cache.set idx nb)[m]? = some b0 → b0.v_bit = 1 →
        b0.tstamp < clk n := by
      intro m b0 hm hb0 hv0
      rw [getElem?_set_other cache idx m nb hm] at hb0
      obtain ⟨k, hk, hk2⟩ := ih1 m b0 hb0 hv0
      rw [hk2]
      exact hclk hk
    constructor
    · intro m b0 hb0 hv0
      by_cases hm : m = idx
      · subst hm
        rw [List.getElem?_set_self hlen] at hb0
        have : nb = b0 := Option.some.inj hb0
        subst this
        exact ⟨n, Nat.lt_succ_self n, hts⟩
      · rw [getElem?_set_other cache idx m nb hm] at hb0
        obtain ⟨k, hk, hk2⟩ := ih1 m b0 hb0 hv0
        exact ⟨k, Nat.lt_succ_of_lt hk, hk2⟩
    · intro i1 i2 b1 b2 hne h1 hv1 h2 hv2
      by_cases hi1 : i1 = idx
      · have hi2 : i2 ≠ idx := fun h => hne (hi1.trans h.symm)
        have hlt := hold i2 b2 hi2 h2 hv2
        rw [hi1, List.getElem?_set_self hlen] at h1
        have : nb = b1 := Option.some.inj h1
        subst this
        rw [hts]
        exact ne_of_gt hlt
      · by_cases hi2 : i2 = idx
        · have hlt := hold i1 b1 hi1 h1 hv1
          rw [hi2, List.getElem?_set_self hlen] at h2
          have : nb = b2 := Option.some.inj h2
          subst this
          rw [hts]
          exact ne_of_lt hlt
        · rw [getElem?_set_other cache idx i1 nb hi1] at h1
          rw [getElem?_set_other cache idx i2 nb hi2] at h2
          exact ih2 i1 i2 b1 b2 hne h1 hv1 h2 hv2

/-! ## The touched line and the allocation of `main` -/

theorem touched_line_unique (cache : List cache_block) (set E : Nat) (tag : Int)
    (r : cache_result) (j j2 : Nat) (hj : j < E) (hj2 : j2 < E)
    (h : touched_line cache set E tag r j) (h2 : touched_line cache set E tag r j2) :
    j2 = j := by
  have key : ∀ a c, a < E → c < E → touched_line cache set E tag r a →
      touched_line cache set E tag r c → ¬ a < c := by
    intro a c ha hc hta htc hlt
    rcases hta with ⟨hr, ⟨blk, hget, hv, ht⟩, -⟩ | ⟨hr, ⟨blk, hget, -, hv⟩, -⟩ |
      ⟨hr, -, blk, hget, hmin, -⟩
    · rcases htc with ⟨-, -, hbefore⟩ | ⟨hr2, -⟩ | ⟨hr2, -⟩
      · obtain ⟨b, hb, hskip⟩ := hbefore a hlt
        have : b = blk := Option.some.inj (hb.symm.trans hget)
        subst this
        exact hskip.1 ⟨hv, ht⟩
      · rw [hr] at hr2; simp at hr2
      · rw [hr] at hr2; simp at hr2
    · rcases htc with ⟨hr2, -⟩ | ⟨-, -, hbefore⟩ | ⟨hr2, -⟩
      · rw [hr] at hr2; simp at hr2
      · obtain ⟨b, hb, hskip⟩ := hbefore a hlt
        have : b = blk := Option.some.inj (hb.symm.trans hget)
        subst this
        exact hskip.2 hv
      · rw [hr] at hr2; simp at hr2
    · rcases htc with ⟨hr2, -⟩ | ⟨hr2, -⟩ | ⟨-, -, blk2, hget2, -, hbef2⟩
      · rw [hr] at hr2; simp at hr2
      · rw [hr] at hr2; simp at hr2
      · obtain ⟨b, hb, hlt2⟩ := hbef2 a hlt
        have e1 : b = blk := Option.some.inj (hb.symm.trans hget)
        subst e1
        obtain ⟨b3, hb3, hle⟩ := hmin c hc
        have e2 : b3 = blk2 := Option.some.inj (hb3.symm.trans hget2)
        subst e2
        omega
  rcases Nat.lt_trichotomy j2 j with hlt | heq | hgt
  · exact absurd hlt (key j2 j hj2 hj h2 h)
  · exact heq
  · exact absurd hgt (key j j2 hj hj2 h h2)

/-- The tag shift takes its count modulo 32: with `s=5, b=5` the address `0x3e0` has
set index 31, the count is 36, and the tag is `0x3e0 >> 4 = 62`. -/
theorem tag_shift_count_wraps :
    addr_set_index (init_cache_params 5 1 5) ⟨.D_LOAD, 0x3e0, 1⟩ = 31 ∧
    addr_tag (init_cache_params 5 1 5) ⟨.D_LOAD, 0x3e0, 1⟩ = 62 := by
  refine ⟨by decide, by decide⟩

/-! ## The claims -/

/-- C1 (evaluation at the failing input): with `s=2, E=1, b=1` the addresses 6 and 14
have the distinct specification tags 0 and 1 and the same set index 3, yet the code
computes the tag 0 for both, so the second lookup is a hit, not a miss with eviction,
and the run ends with hits 1, misses 1, evictions 0. -/
theorem distinct_tags_same_set_hit :
    spec_tag 2 1 6 = 0 ∧ spec_tag 2 1 14 = 1 ∧
    spec_set_index 2 1 6 = 3 ∧ spec_set_index 2 1 14 = 3 ∧
    addr_tag (init_cache_params 2 1 1) ⟨.D_LOAD, 6, 1⟩ = 0 ∧
    addr_tag (init_cache_params 2 1 1) ⟨.D_LOAD, 14, 1⟩ = 0 ∧
    simulate_cache_read_write (init_cache (4 * 1 * 2)) (init_cache_params 2 1 1)
        ⟨.D_LOAD, 6, 1⟩ 0
      = some ({ hit := 0, miss := 1, eviction := 0 },
          [⟨0, 0, 0⟩, ⟨0, 0, 0⟩, ⟨0, 0, 0⟩, ⟨1, 0, 0⟩, ⟨0, 0, 0⟩, ⟨0, 0, 0⟩, ⟨0, 0, 0⟩,
            ⟨0, 0, 0⟩]) ∧
    simulate_cache_read_write
        [⟨0, 0, 0⟩, ⟨0, 0, 0⟩, ⟨0, 0, 0⟩, ⟨1, 0, 0⟩, ⟨0, 0, 0⟩, ⟨0, 0, 0⟩, ⟨0, 0, 0⟩, ⟨0, 0, 0⟩]
        (init_cache_params 2 1 1) ⟨.D_LOAD, 14, 1⟩ 1
      = some ({ hit := 1, miss := 0, eviction := 0 },
          [⟨0, 0, 0⟩, ⟨0, 0, 0⟩, ⟨0, 0, 0⟩, ⟨1, 0, 1⟩, ⟨0, 0, 0⟩, ⟨0, 0, 0⟩, ⟨0, 0, 0⟩,
            ⟨0, 0, 0⟩]) ∧
    main_run 2 1 1 [⟨.D_LOAD, 6, 1⟩, ⟨.D_LOAD, 14, 1⟩] (fun k => k) = .ok (1, 1, 0) := by
  refine ⟨by decide, by decide, by decide, by decide, by decide, by decide, by decide,
    by decide, rfl⟩

/-- C2: for every configuration with positive `s`, `E`, `b` and two records with the
same address, the first lookup on the freshly initialised cache is a miss without
eviction and the second is a hit; a trace of two such single-lookup records ends with
hits 1, misses 1, evictions 0. -/
theorem same_address_twice (s E b : Int) (hs : 0 < s) (hE : 0 < E) (hb : 0 < b)
    (l1 l2 : cache_line) (haddr : l1.addr = l2.addr) (clk : Nat → Int) :
    (∃ c1 c2,
      simulate_cache_read_write
          (init_cache ((init_cache_params s.toNat E.toNat b.toNat).S *
            (init_cache_params s.toNat E.toNat b.toNat).E *
            (init_cache_params s.toNat E.toNat b.toNat).B))
          (init_cache_params s.toNat E.toNat b.toNat) l1 (clk 0)
        = some ({ hit := 0, miss := 1, eviction := 0 }, c1) ∧
      simulate_cache_read_write c1 (init_cache_params s.toNat E.toNat b.toNat) l2 (clk 1)
        = some ({ hit := 1, miss := 0, eviction := 0 }, c2)) ∧
    ((l1.flag = .I_LOAD ∨ l1.flag = .D_LOAD ∨ l1.flag = .D_STORE) →
      (l2.flag = .I_LOAD ∨ l2.flag = .D_LOAD ∨ l2.flag = .D_STORE) →
      main_run s E b [l1, l2] clk = .ok (1, 1, 0)) := by
  have hEn : 0 < (init_cache_params s.toNat E.toNat b.toNat).E := by
    show 0 < E.toNat
    omega
  have hbound := reachable_in_bounds s.toNat E.toNat b.toNat _ Reachable.init l1
  have hget : (init_cache ((init_cache_params s.toNat E.toNat b.toNat).S *
            (init_cache_params s.toNat E.toNat b.toNat).E *
            (init_cache_params s.toNat E.toNat b.toNat).B))[set_start
              (init_cache_params s.toNat E.toNat b.toNat) l1]?
      = some { v_bit := 0, tag := 0, tstamp := 0 } := by
    have hlen : set_start (init_cache_params s.toNat E.toNat b.toNat) l1 <
        (init_cache_params s.toNat E.toNat b.toNat).S *
            (init_cache_params s.toNat E.toNat b.toNat).E *
            (init_cache_params s.toNat E.toNat b.toNat).B := by
      have h1 : 0 < E.toNat := by omega
      simp only [init_cache, List.length_replicate] at hbound
      omega
    simp only [init_cache]
    rw [List.getElem?_replicate, if_pos hlen]
  obtain ⟨h1, h2⟩ := fresh_then_same_address _ _ l1 l2 (clk 0) (clk 1) hEn haddr hget
  refine ⟨⟨_, _, h1, h2⟩, ?_⟩
  intro hf1 hf2
  have hguard : ¬ (s ≤ 0 ∨ E ≤ 0 ∨ b ≤ 0) := by omega
  unfold main_run
  rw [if_neg hguard]
  simp only [main_loop]
  rw [process_line_single _ clk _ l1 _ _ hf1 h1]
  simp only
  rw [process_line_single _ clk _ l2 _ _ hf2 h2]
  simp

/-- Witness of C2: the configuration `s=4, E=2, b=4` and two loads of address `0x10`. -/
theorem same_address_twice_witness :
    main_run 4 2 4 [⟨.D_LOAD, 0x10, 1⟩, ⟨.D_LOAD, 0x10, 1⟩] (fun _ => 0) = .ok (1, 1, 0) :=
  (same_address_twice 4 2 4 (by decide) (by decide) (by decide)
    ⟨.D_LOAD, 0x10, 1⟩ ⟨.D_LOAD, 0x10, 1⟩ rfl (fun _ => 0)).2
    (Or.inr (Or.inl rfl)) (Or.inr (Or.inl rfl))

/-- C3 (the claim as stated fails): with `s=1, E=1, b=1`, after the record `L 0,1`
the record `M 1,1`, whose address 1 has not appeared before, adds two hits and no
miss, because address 1 lies in the block that address 0 has brought in. -/
theorem modify_unseen_address_two_hits :
    (1 : Nat) ∉ List.map cache_line.addr [⟨.D_LOAD, 0, 1⟩] ∧
    main_run 1 1 1 [⟨.D_LOAD, 0, 1⟩] (fun k => k) = .ok (0, 1, 0) ∧
    main_run 1 1 1 [⟨.D_LOAD, 0, 1⟩, ⟨.D_MODIFY, 1, 1⟩] (fun k => k) = .ok (2, 1, 0) :=
  ⟨by decide, rfl, rfl⟩

/-- C3 (amended): in every reachable cache state, a DataModify record whose tag is
held by no valid line of its target set adds exactly one hit and one miss to the
totals, and no eviction when the target set had an invalid line. -/
theorem modify_absent_tag (s E b : Nat) (hE : 0 < E) (clk : Nat → Int) (st : sim_state)
    (line : cache_line) (hflag : line.flag = .D_MODIFY)
    (hreach : Reachable (init_cache_params s E b) st.cache)
    (habsent : ¬ holds_tag st.cache (set_start (init_cache_params s E b) line) E
      (addr_tag (init_cache_params s E b) line)) :
    ∃ st1, process_line (init_cache_params s E b) clk st line = .ok st1 ∧
      st1.hit_count = st.hit_count + 1 ∧ st1.miss_count = st.miss_count + 1 ∧
      (has_invalid st.cache (set_start (init_cache_params s E b) line) E →
        st1.eviction_count = st.eviction_count) := by
  have hb := reachable_in_bounds s E b _ hreach line
  have hbit := reachable_v_bit _ _ hreach
  have hmax : max (init_cache_params s E b).E 1 = E := max_eq_left hE
  obtain ⟨r1, c1, h1⟩ := simulate_total st.cache (init_cache_params s E b) line
    (clk st.clock_calls) (by rw [hmax]; exact hb)
  rcases simulate_cases _ _ _ _ _ _ h1 with
    ⟨j, blk, hj, hget, -, hv, ht, -, -⟩ | ⟨j, blk, hj, hget, hbefore, -, hv, hr, hc⟩ |
    ⟨hall, hr, j, blk, hj, hget, -, -, hc⟩
  · exact absurd ⟨j, hj, blk, hget, hv, ht⟩ habsent
  · subst hc
    have h2 := second_lookup_hits st.cache (init_cache_params s E b) line
      (clk (st.clock_calls + 1)) j
      { v_bit := 1, tag := addr_tag (init_cache_params s E b) line,
        tstamp := clk st.clock_calls }
      hj (getElem?_lt_length _ _ _ hget) hbefore rfl rfl
    refine ⟨_, process_line_modify _ clk st line _ _ _ _ hflag h1 h2, ?_, ?_, ?_⟩
    · subst hr; simp
    · subst hr; simp
    · intro _; subst hr; simp
  · have hjE : j < (init_cache_params s E b).E := by
      rcases hj with hj | hj
      · exact hj
      · rw [hj]; exact hE
    subst hc
    obtain ⟨b0, hb0, hskip⟩ := hall j hjE
    have hbb : b0 = blk := Option.some.inj (hb0.symm.trans hget)
    subst hbb
    have hv1 : b0.v_bit = 1 := by
      rcases hbit b0 (List.getElem?_mem hget) with h0 | h1
      · exact absurd h0 hskip.2
      · exact h1
    have h2 := second_lookup_hits st.cache (init_cache_params s E b) line
      (clk (st.clock_calls + 1)) j
      { b0 with tstamp := clk st.clock_calls, tag := addr_tag (init_cache_params s E b) line }
      hjE (getElem?_lt_length _ _ _ hget) (fun i hi => hall i (by omega)) hv1 rfl
    refine ⟨_, process_line_modify _ clk st line _ _ _ _ hflag h1 h2, ?_, ?_, ?_⟩
    · subst hr; simp
    · subst hr; simp
    · rintro ⟨i, hi, bi, hbi, hv0⟩
      obtain ⟨b2, hb2, hskip2⟩ := hall i hi
      have : b2 = bi := Option.some.inj (hb2.symm.trans hbi)
      subst this
      exact absurd hv0 hskip2.2

/-- Witness of C3 (amended): `M 8,1` on the freshly initialised cache of
`s=1, E=1, b=1`. -/
theorem modify_absent_tag_witness :
    ∃ st1, process_line (init_cache_params 1 1 1) (fun k => k)
        ⟨init_cache (2 * 1 * 2), 0, 0, 0, 0, []⟩ ⟨.D_MODIFY, 8, 1⟩ = .ok st1 ∧
      st1.hit_count = 0 + 1 ∧ st1.miss_count = 0 + 1 ∧
      (has_invalid (init_cache (2 * 1 * 2))
          (set_start (init_cache_params 1 1 1) ⟨.D_MODIFY, 8, 1⟩) 1 →
        st1.eviction_count = 0) :=
  modify_absent_tag 1 1 1 (by decide) (fun k => k) ⟨init_cache (2 * 1 * 2), 0, 0, 0, 0, []⟩
    ⟨.D_MODIFY, 8, 1⟩ rfl Reachable.init (by decide)

/-- C4: with `s=1, E=1, b=1` and the cache that `main` initialises, the records
`L 0,1` and `L 8,1` give a miss without eviction and then a miss with eviction,
whatever `clock()` returns, and the summary is hits 0, misses 2, evictions 1. -/
theorem trace_0_8_direct_mapped (clk : Nat → Int) :
    (∃ c1 c2,
      simulate_cache_read_write (init_cache (2 * 1 * 2)) (init_cache_params 1 1 1)
          ⟨.D_LOAD, 0, 1⟩ (clk 0) = some ({ hit := 0, miss := 1, eviction := 0 }, c1) ∧
      simulate_cache_read_write c1 (init_cache_params 1 1 1) ⟨.D_LOAD, 8, 1⟩ (clk 1)
        = some ({ hit := 0, miss := 1, eviction := 1 }, c2)) ∧
    main_run 1 1 1 [⟨.D_LOAD, 0, 1⟩, ⟨.D_LOAD, 8, 1⟩] clk = .ok (0, 2, 1) := by
  have t0 : addr_tag (init_cache_params 1 1 1) ⟨.D_LOAD, 0, 1⟩ = 0 := by decide
  have t8 : addr_tag (init_cache_params 1 1 1) ⟨.D_LOAD, 8, 1⟩ = 4 := by decide
  have s0 : set_start (init_cache_params 1 1 1) ⟨.D_LOAD, 0, 1⟩ = 0 := by decide
  have s8 : set_start (init_cache_params 1 1 1) ⟨.D_LOAD, 8, 1⟩ = 0 := by decide
  have h1 : simulate_cache_read_write (init_cache (2 * 1 * 2)) (init_cache_params 1 1 1)
      ⟨.D_LOAD, 0, 1⟩ (clk 0) = some ({ hit := 0, miss := 1, eviction := 0 },
        [⟨1, 0, clk 0⟩, ⟨0, 0, 0⟩, ⟨0, 0, 0⟩, ⟨0, 0, 0⟩]) := by
    simp only [simulate_cache_read_write, t0, s0]
    simp [init_cache, init_cache_params, scan_set]
  have h2 : simulate_cache_read_write [⟨1, 0, clk 0⟩, ⟨0, 0, 0⟩, ⟨0, 0, 0⟩, ⟨0, 0, 0⟩]
      (init_cache_params 1 1 1) ⟨.D_LOAD, 8, 1⟩ (clk 1)
      = some ({ hit := 0, miss := 1, eviction := 1 },
        [⟨1, 4, clk 1⟩, ⟨0, 0, 0⟩, ⟨0, 0, 0⟩, ⟨0, 0, 0⟩]) := by
    simp only [simulate_cache_read_write, t8, s8]
    simp [init_cache_params, scan_set, evict, lru_scan]
  refine ⟨⟨_, _, h1, h2⟩, ?_⟩
  have e : init_cache_params (Int.toNat 1) (Int.toNat 1) (Int.toNat 1) = init_cache_params 1 1 1 :=
    rfl
  have hsize : (init_cache_params 1 1 1).S * (init_cache_params 1 1 1).E *
      (init_cache_params 1 1 1).B = 2 * 1 * 2 := by decide
  unfold main_run
  rw [if_neg (by decide), e]
  simp only [hsize, main_loop]
  rw [process_line_single _ clk _ _ _ _ (Or.inr (Or.inl rfl)) h1]
  simp only
  rw [process_line_single _ clk _ _ _ _ (Or.inr (Or.inl rfl)) h2]
  simp

/-- C5 (evaluation at the failing input): with `s=1, E=2, b=1` the trace
`L 0, L 4, L 0, L 8, L 0` started on the freshly initialised cache ends with hits 1,
misses 4, evictions 2 when every call of `clock()` returns 0, and with hits 2,
misses 3, evictions 1 when `clock()` returns 0, 0, 1, 1, 1. -/
theorem totals_depend_on_clock :
    main_run 1 2 1
        [⟨.D_LOAD, 0, 1⟩, ⟨.D_LOAD, 4, 1⟩, ⟨.D_LOAD, 0, 1⟩, ⟨.D_LOAD, 8, 1⟩, ⟨.D_LOAD, 0, 1⟩]
        (fun _ => 0) = .ok (1, 4, 2) ∧
    main_run 1 2 1
        [⟨.D_LOAD, 0, 1⟩, ⟨.D_LOAD, 4, 1⟩, ⟨.D_LOAD, 0, 1⟩, ⟨.D_LOAD, 8, 1⟩, ⟨.D_LOAD, 0, 1⟩]
        (fun k => if k < 2 then 0 else 1) = .ok (2, 3, 1) :=
  ⟨rfl, rfl⟩

/-- C6: a lookup that stays inside the cache returns, and the outcome a lookup
returns is one of `{1,0,0}`, `{0,1,0}` and `{0,1,1}`: exactly one of hit and miss is
1, and eviction is 1 only together with miss. -/
theorem single_lookup_outcome (cache : List cache_block) (params : cache_params)
    (line : cache_line) (now : Int) :
    (set_start params line + max params.E 1 ≤ cache.length →
      ∃ r c, simulate_cache_read_write cache params line now = some (r, c)) ∧
    (∀ r c, simulate_cache_read_write cache params line now = some (r, c) →
      single_outcome r ∧ (r.hit = 1 ∧ r.miss = 0 ∨ r.hit = 0 ∧ r.miss = 1) ∧
        (r.eviction = 1 → r.miss = 1) ∧ (r.eviction = 0 ∨ r.eviction = 1)) := by
  refine ⟨simulate_total cache params line now, ?_⟩
  intro r c h
  rcases simulate_cases cache params line now r c h with
    ⟨_, _, _, _, _, _, _, hr, _⟩ | ⟨_, _, _, _, _, _, _, hr, _⟩ | ⟨_, hr, _⟩ <;>
  · subst hr
    simp [single_outcome]

/-- Witness of C6: a lookup of address 8 in the 4-block cache of `s=1, E=1, b=1`
whose first block is valid with another tag. -/
theorem single_lookup_outcome_witness :
    (∃ r c, simulate_cache_read_write [⟨1, 0, 0⟩, ⟨0, 0, 0⟩, ⟨0, 0, 0⟩, ⟨0, 0, 0⟩]
        (init_cache_params 1 1 1) ⟨.D_STORE, 8, 1⟩ 5 = some (r, c)) ∧
    single_outcome { hit := 0, miss := 1, eviction := 1 } :=
  ⟨(single_lookup_outcome [⟨1, 0, 0⟩, ⟨0, 0, 0⟩, ⟨0, 0, 0⟩, ⟨0, 0, 0⟩]
      (init_cache_params 1 1 1) ⟨.D_STORE, 8, 1⟩ 5).1 (by decide),
   ((single_lookup_outcome [⟨1, 0, 0⟩, ⟨0, 0, 0⟩, ⟨0, 0, 0⟩, ⟨0, 0, 0⟩]
      (init_cache_params 1 1 1) ⟨.D_STORE, 8, 1⟩ 5).2 _
      [⟨1, 4, 5⟩, ⟨0, 0, 0⟩, ⟨0, 0, 0⟩, ⟨0, 0, 0⟩] (by decide)).1⟩

/-- C7 (evaluation at the failing input): with `s=1, b=1` and address 8 the tag that
the lookup computes and stores is `8 >> (0+1) = 4`, where 0 is the set index of the
address, and not `8 >> (1+1) = 2`. -/
theorem tag_of_address_8 :
    addr_set_index (init_cache_params 1 1 1) ⟨.D_LOAD, 8, 1⟩ = 0 ∧
    addr_tag (init_cache_params 1 1 1) ⟨.D_LOAD, 8, 1⟩ = 4 ∧
    spec_tag 1 1 8 = 2 ∧
    simulate_cache_read_write (init_cache (2 * 1 * 2)) (init_cache_params 1 1 1)
        ⟨.D_LOAD, 8, 1⟩ 0
      = some ({ hit := 0, miss := 1, eviction := 0 },
          [⟨1, 4, 0⟩, ⟨0, 0, 0⟩, ⟨0, 0, 0⟩, ⟨0, 0, 0⟩]) := by
  refine ⟨by decide, by decide, by decide, by decide⟩

/-- C8 (the claim as stated fails): with `s=17, b=16` and the 64-bit address
`0x100000000` the lookup uses set index 0, the index of the address narrowed to a
32-bit `int`, where `(address >> b) & (S-1)` on the 64-bit address is 65536. -/
theorem set_index_of_address_2_pow_32 :
    (0x100000000 : Nat) < 2 ^ 64 ∧
    addr_set_index (init_cache_params 17 1 16) ⟨.D_LOAD, 0x100000000, 1⟩ = 0 ∧
    set_start (init_cache_params 17 1 16) ⟨.D_LOAD, 0x100000000, 1⟩ = 0 ∧
    spec_set_index 17 16 0x100000000 = 65536 := by
  refine ⟨by decide, by decide, by decide, by decide⟩

/-- C8 (amended): for every address and every `s`, `b` with `s + b ≤ 32`, the set index
that the lookup uses is `(address >> b) & (S-1)` with `S = 2^s`, computed on the full
address. -/
theorem addr_set_index_low_bits (s E b : Nat) (hsb : s + b ≤ 32) (line : cache_line) :
    addr_set_index (init_cache_params s E b) line = ((spec_set_index s b line.addr : Nat) : Int) := by
  unfold addr_set_index spec_set_index
  simp only [init_cache_params]
  rw [land_mask_eq_emod, Int.shiftRight_eq_div_pow, Nat.and_pow_two_sub_one_eq_mod,
    Nat.shiftRight_eq_div_pow]
  obtain ⟨q, hq⟩ := to_int32_congruent (line.addr : Int)
  have hexp : b + (s + (32 - b - s)) = 32 := by omega
  have e1 : (2:Int) ^ 32 = 2 ^ b * (2 ^ s * 2 ^ (32 - b - s)) := by
    rw [← pow_add, ← pow_add, hexp]
  have hb0 : ((2:Int) ^ b) ≠ 0 := by positivity
  push_cast
  rw [hq, e1, Int.mul_assoc, Int.add_mul_ediv_left _ _ hb0, Int.mul_assoc,
    Int.add_mul_emod_self_left]

/-- Witness of C8 (amended): `s=4, b=4` and the address `0x7ff0005c8`, whose narrowing
to a 32-bit `int` is negative; the set index is 12. -/
theorem addr_set_index_low_bits_witness :
    addr_set_index (init_cache_params 4 2 4) ⟨.D_LOAD, 0x7ff0005c8, 1⟩ =
      ((spec_set_index 4 4 (cache_line.mk .D_LOAD 0x7ff0005c8 1).addr : Nat) : Int) :=
  addr_set_index_low_bits 4 2 4 (by decide) ⟨.D_LOAD, 0x7ff0005c8, 1⟩

/-- C9: in every reachable cache state a lookup returns; it returns a hit exactly
when a valid line of the target set holds the tag of the address; when none does, it
returns a miss without eviction if the set has an invalid line, filling the
lowest-index invalid line with the tag and marking it valid, and a miss with eviction
if all `E` lines of the set are valid. -/
theorem lookup_by_set_content (s E b : Nat) (hE : 0 < E) (cache : List cache_block)
    (hreach : Reachable (init_cache_params s E b) cache) (line : cache_line) (now : Int) :
    ∃ r c1, simulate_cache_read_write cache (init_cache_params s E b) line now = some (r, c1) ∧
      (r = { hit := 1, miss := 0, eviction := 0 } ↔
        holds_tag cache (set_start (init_cache_params s E b) line) E
          (addr_tag (init_cache_params s E b) line)) ∧
      (¬ holds_tag cache (set_start (init_cache_params s E b) line) E
          (addr_tag (init_cache_params s E b) line) →
        (has_invalid cache (set_start (init_cache_params s E b) line) E →
          r = { hit := 0, miss := 1, eviction := 0 } ∧
          ∃ j, j < E ∧ first_invalid cache (set_start (init_cache_params s E b) line) j ∧
            c1 = cache.set (set_start (init_cache_params s E b) line + j)
              { v_bit := 1, tag := addr_tag (init_cache_params s E b) line, tstamp := now }) ∧
        (all_valid cache (set_start (init_cache_params s E b) line) E →
          r = { hit := 0, miss := 1, eviction := 1 })) := by
  have hb := reachable_in_bounds s E b _ hreach line
  have hrun := reachable_valid_run _ _ hreach
  have hmax : max (init_cache_params s E b).E 1 = E := max_eq_left hE
  obtain ⟨r, c1, h1⟩ := simulate_total cache (init_cache_params s E b) line now
    (by rw [hmax]; exact hb)
  refine ⟨r, c1, h1, ?_⟩
  rcases simulate_cases _ _ _ _ _ _ h1 with
    ⟨j, blk, hj, hget, -, hv, ht, hr, -⟩ | ⟨j, blk, hj, hget, hbefore, -, hv, hr, hc⟩ |
    ⟨hall, hr, -⟩
  · have hold : holds_tag cache (set_start (init_cache_params s E b) line) E
        (addr_tag (init_cache_params s E b) line) := ⟨j, hj, blk, hget, hv, ht⟩
    exact ⟨⟨fun _ => hold, fun _ => hr⟩, fun hn => absurd hold hn⟩
  · have hnot : ¬ holds_tag cache (set_start (init_cache_params s E b) line) E
        (addr_tag (init_cache_params s E b) line) := by
      rintro ⟨i, hi, bi, hbi, hvi, hti⟩
      rcases Nat.lt_trichotomy i j with hij | hij | hij
      · obtain ⟨b2, hb2, hskip⟩ := hbefore i hij
        have : b2 = bi := Option.some.inj (hb2.symm.trans hbi)
        subst this
        exact hskip.1 ⟨hvi, hti⟩
      · subst hij
        have : blk = bi := Option.some.inj (hget.symm.trans hbi)
        subst this
        rw [hv] at hvi
        exact absurd hvi (by decide)
      · obtain ⟨b2, hb2, hv2⟩ := hrun _ i j hij hi ⟨bi, hbi, hvi⟩
        have : b2 = blk := Option.some.inj (hb2.symm.trans hget)
        subst this
        rw [hv] at hv2
        exact absurd hv2 (by decide)
    refine ⟨⟨fun h => ?_, fun h => absurd h hnot⟩, fun _ => ⟨fun _ => ⟨hr, j, hj, ⟨⟨blk, hget, hv⟩, ?_⟩, hc⟩, ?_⟩⟩
    · rw [hr] at h
      simp at h
    · intro i hi
      obtain ⟨b2, hb2, hskip⟩ := hbefore i hi
      exact ⟨b2, hb2, hskip.2⟩
    · intro hvalid
      obtain ⟨b2, hb2, hv2⟩ := hvalid j hj
      have : b2 = blk := Option.some.inj (hb2.symm.trans hget)
      subst this
      rw [hv] at hv2
      exact absurd hv2 (by decide)
  · have hnot : ¬ holds_tag cache (set_start (init_cache_params s E b) line) E
        (addr_tag (init_cache_params s E b) line) := by
      rintro ⟨i, hi, bi, hbi, hvi, hti⟩
      obtain ⟨b2, hb2, hskip⟩ := hall i hi
      have : b2 = bi := Option.some.inj (hb2.symm.trans hbi)
      subst this
      exact hskip.1 ⟨hvi, hti⟩
    refine ⟨⟨fun h => ?_, fun h => absurd h hnot⟩, fun _ => ⟨?_, fun _ => hr⟩⟩
    · rw [hr] at h
      simp at h
    · rintro ⟨i, hi, bi, hbi, hv0⟩
      obtain ⟨b2, hb2, hskip⟩ := hall i hi
      have : b2 = bi := Option.some.inj (hb2.symm.trans hbi)
      subst this
      exact absurd hv0 hskip.2

/-- Witness of C9: `s=1, E=1, b=1`, the cache after a lookup of address 0, and a second
lookup of address 0. -/
theorem lookup_by_set_content_witness :
    ∃ r c1, simulate_cache_read_write [⟨1, 0, 0⟩, ⟨0, 0, 0⟩, ⟨0, 0, 0⟩, ⟨0, 0, 0⟩]
        (init_cache_params 1 1 1) ⟨.D_LOAD, 0, 1⟩ 1 = some (r, c1) ∧
      (r = { hit := 1, miss := 0, eviction := 0 } ↔
        holds_tag [⟨1, 0, 0⟩, ⟨0, 0, 0⟩, ⟨0, 0, 0⟩, ⟨0, 0, 0⟩]
          (set_start (init_cache_params 1 1 1) ⟨.D_LOAD, 0, 1⟩) 1
          (addr_tag (init_cache_params 1 1 1) ⟨.D_LOAD, 0, 1⟩)) ∧
      (¬ holds_tag [⟨1, 0, 0⟩, ⟨0, 0, 0⟩, ⟨0, 0, 0⟩, ⟨0, 0, 0⟩]
          (set_start (init_cache_params 1 1 1) ⟨.D_LOAD, 0, 1⟩) 1
          (addr_tag (init_cache_params 1 1 1) ⟨.D_LOAD, 0, 1⟩) →
        (has_invalid [⟨1, 0, 0⟩, ⟨0, 0, 0⟩, ⟨0, 0, 0⟩, ⟨0, 0, 0⟩]
            (set_start (init_cache_params 1 1 1) ⟨.D_LOAD, 0, 1⟩) 1 →
          r = { hit := 0, miss := 1, eviction := 0 } ∧
          ∃ j, j < 1 ∧ first_invalid [⟨1, 0, 0⟩, ⟨0, 0, 0⟩, ⟨0, 0, 0⟩, ⟨0, 0, 0⟩]
              (set_start (init_cache_params 1 1 1) ⟨.D_LOAD, 0, 1⟩) j ∧
            c1 = List.set [⟨1, 0, 0⟩, ⟨0, 0, 0⟩, ⟨0, 0, 0⟩, ⟨0, 0, 0⟩]
              (set_start (init_cache_params 1 1 1) ⟨.D_LOAD, 0, 1⟩ + j)
              { v_bit := 1, tag := addr_tag (init_cache_params 1 1 1) ⟨.D_LOAD, 0, 1⟩,
                tstamp := 1 }) ∧
        (all_valid [⟨1, 0, 0⟩, ⟨0, 0, 0⟩, ⟨0, 0, 0⟩, ⟨0, 0, 0⟩]
            (set_start (init_cache_params 1 1 1) ⟨.D_LOAD, 0, 1⟩) 1 →
          r = { hit := 0, miss := 1, eviction := 1 })) :=
  lookup_by_set_content 1 1 1 (by decide) [⟨1, 0, 0⟩, ⟨0, 0, 0⟩, ⟨0, 0, 0⟩, ⟨0, 0, 0⟩]
    (Reachable.step (init_cache (2 * 1 * 2)) ⟨.D_LOAD, 0, 1⟩ 0
      { hit := 0, miss := 1, eviction := 0 } _ Reachable.init (by decide))
    ⟨.D_LOAD, 0, 1⟩ 1

/-- C10: when a lookup returns an outcome with eviction 1, the outcome is a miss with
eviction, and the block that is overwritten is the line of the target set with the
smallest time stamp among the `E` lines, the lowest-index one among equals; that
block keeps its index and its valid bit, which is not 0 (so it is 1 whenever valid
bits are 0 or 1), and afterwards holds the new tag and the time stamp of this lookup. -/
theorem eviction_overwrites_lru (cache : List cache_block) (params : cache_params)
    (line : cache_line) (now : Int) (r : cache_result) (c1 : List cache_block)
    (hE : 0 < params.E)
    (h : simulate_cache_read_write cache params line now = some (r, c1))
    (hev : r.eviction = 1) :
    r = { hit := 0, miss := 1, eviction := 1 } ∧
    ∃ j, j < params.E ∧ lru_line cache (set_start params line) params.E j ∧
      overwritten cache c1 (set_start params line + j) (addr_tag params line) now := by
  rcases simulate_cases _ _ _ _ _ _ h with
    ⟨_, _, _, _, _, _, _, hr, _⟩ | ⟨_, _, _, _, _, _, _, hr, _⟩ |
    ⟨hall, hr, j, blk, hj, hget, hmin, hbef, hc⟩
  · rw [hr] at hev; simp at hev
  · rw [hr] at hev; simp at hev
  · have hjE : j < params.E := by
      rcases hj with hj | hj
      · exact hj
      · rw [hj]; exact hE
    refine ⟨hr, j, hjE, ⟨blk, hget, hmin, hbef⟩, blk, hget, ?_, hc, ?_⟩
    · obtain ⟨b2, hb2, hskip⟩ := hall j hjE
      have : b2 = blk := Option.some.inj (hb2.symm.trans hget)
      subst this
      exact hskip.2
    · rw [hc]
      exact List.getElem?_set_self (getElem?_lt_length _ _ _ hget)

/-- Witness of C10: `s=1, E=2, b=1`, set 0 holds the tags 0 and 2 with time stamps 3
and 1, and address 8 (tag 4) is looked up at time 7. -/
theorem eviction_overwrites_lru_witness :
    ({ hit := 0, miss := 1, eviction := 1 } : cache_result) =
        { hit := 0, miss := 1, eviction := 1 } ∧
    ∃ j, j < (init_cache_params 1 2 1).E ∧
      lru_line [⟨1, 0, 3⟩, ⟨1, 2, 1⟩, ⟨0, 0, 0⟩, ⟨0, 0, 0⟩]
        (set_start (init_cache_params 1 2 1) ⟨.D_LOAD, 8, 1⟩) (init_cache_params 1 2 1).E j ∧
      overwritten [⟨1, 0, 3⟩, ⟨1, 2, 1⟩, ⟨0, 0, 0⟩, ⟨0, 0, 0⟩]
        [⟨1, 0, 3⟩, ⟨1, 4, 7⟩, ⟨0, 0, 0⟩, ⟨0, 0, 0⟩]
        (set_start (init_cache_params 1 2 1) ⟨.D_LOAD, 8, 1⟩ + j)
        (addr_tag (init_cache_params 1 2 1) ⟨.D_LOAD, 8, 1⟩) 7 :=
  eviction_overwrites_lru [⟨1, 0, 3⟩, ⟨1, 2, 1⟩, ⟨0, 0, 0⟩, ⟨0, 0, 0⟩] (init_cache_params 1 2 1)
    ⟨.D_LOAD, 8, 1⟩ 7 _ _ (by decide) (by decide) rfl

/-- C11: a lookup writes one block, the line of the target set that it hits, fills or
evicts: that line is the only line of the set that the outcome singles out, the
cache after the lookup is the cache before it with that one block replaced, and every
block at another index keeps its valid bit, tag and time stamp, which holds in
particular for the lines of every other set and for the other lines of the target
set; the number of blocks does not change. -/
theorem lookup_writes_one_line (cache : List cache_block) (params : cache_params)
    (line : cache_line) (now : Int) (r : cache_result) (after : List cache_block)
    (hE : 0 < params.E)
    (h : simulate_cache_read_write cache params line now = some (r, after)) :
    ∃ j blk, j < params.E ∧ cache[set_start params line + j]? = some blk ∧
      touched_line cache (set_start params line) params.E (addr_tag params line) r j ∧
      (∀ j2, j2 < params.E →
        touched_line cache (set_start params line) params.E (addr_tag params line) r j2 →
        j2 = j) ∧
      after = cache.set (set_start params line + j)
        (written_block r blk (addr_tag params line) now) ∧
      after.length = cache.length ∧
      (∀ m, m ≠ set_start params line + j → after[m]? = cache[m]?) ∧
      (∀ k i, i < params.E → k ≠ (addr_set_index params line).toNat →
        after[k * params.E + i]? = cache[k * params.E + i]?) ∧
      (∀ i, i < params.E → i ≠ j →
        after[set_start params line + i]? = cache[set_start params line + i]?) := by
  have hcore : ∃ j blk, j < params.E ∧ cache[set_start params line + j]? = some blk ∧
      touched_line cache (set_start params line) params.E (addr_tag params line) r j ∧
      after = cache.set (set_start params line + j)
        (written_block r blk (addr_tag params line) now) := by
    rcases simulate_cases cache params line now r after h with
      ⟨j, blk, hj, hget, hbefore, hv, ht, hr, hc⟩ |
      ⟨j, blk, hj, hget, hbefore, hn, hv, hr, hc⟩ |
      ⟨hall, hr, j, blk, hj, hget, hmin, hbef, hc⟩
    · refine ⟨j, blk, hj, hget, Or.inl ⟨hr, ⟨blk, hget, hv, ht⟩, hbefore⟩, ?_⟩
      rw [hc, hr]
      simp [written_block]
    · refine ⟨j, blk, hj, hget, Or.inr (Or.inl ⟨hr, ⟨blk, hget, hn, hv⟩, hbefore⟩), ?_⟩
      rw [hc, hr]
      simp [written_block]
    · have hjE : j < params.E := by
        rcases hj with hj | hj
        · exact hj
        · rw [hj]; exact hE
      refine ⟨j, blk, hjE, hget, Or.inr (Or.inr ⟨hr, hall, ⟨blk, hget, hmin, hbef⟩⟩), ?_⟩
      rw [hc, hr]
      simp [written_block]
  obtain ⟨j, blk, hj, hget, htouch, hc⟩ := hcore
  subst hc
  refine ⟨j, blk, hj, hget, htouch,
    fun j2 hj2 h2 => touched_line_unique cache _ _ _ r j j2 hj hj2 htouch h2, rfl,
    List.length_set .., fun m hm => getElem?_set_other cache _ m _ hm, ?_, ?_⟩
  · intro k i hi hk
    apply getElem?_set_other
    intro heq
    exact hk (set_line_unique params.E k i _ j hi hj heq).1
  · intro i _ hij
    apply getElem?_set_other
    omega

/-- Witness of C11: `s=1, E=2, b=1`, a cache whose set 0 holds the tags 0 and 2, and
a lookup of address 4 (tag 2) at time 7: the hit is on line 1, and line 1 is the
block that changes. -/
theorem lookup_writes_one_line_witness :
    ∃ j blk, j < (init_cache_params 1 2 1).E ∧
      [(⟨1, 0, 3⟩ : cache_block), ⟨1, 2, 1⟩, ⟨0, 0, 0⟩, ⟨0, 0, 0⟩][set_start
        (init_cache_params 1 2 1) ⟨.D_LOAD, 4, 1⟩ + j]? = some blk ∧
      touched_line [⟨1, 0, 3⟩, ⟨1, 2, 1⟩, ⟨0, 0, 0⟩, ⟨0, 0, 0⟩]
        (set_start (init_cache_params 1 2 1) ⟨.D_LOAD, 4, 1⟩) (init_cache_params 1 2 1).E
        (addr_tag (init_cache_params 1 2 1) ⟨.D_LOAD, 4, 1⟩)
        { hit := 1, miss := 0, eviction := 0 } j ∧
      (∀ j2, j2 < (init_cache_params 1 2 1).E →
        touched_line [⟨1, 0, 3⟩, ⟨1, 2, 1⟩, ⟨0, 0, 0⟩, ⟨0, 0, 0⟩]
          (set_start (init_cache_params 1 2 1) ⟨.D_LOAD, 4, 1⟩) (init_cache_params 1 2 1).E
          (addr_tag (init_cache_params 1 2 1) ⟨.D_LOAD, 4, 1⟩)
          { hit := 1, miss := 0, eviction := 0 } j2 →
        j2 = j) ∧
      [(⟨1, 0, 3⟩ : cache_block), ⟨1, 2, 7⟩, ⟨0, 0, 0⟩, ⟨0, 0, 0⟩] =
        List.set [(⟨1, 0, 3⟩ : cache_block), ⟨1, 2, 1⟩, ⟨0, 0, 0⟩, ⟨0, 0, 0⟩]
          (set_start (init_cache_params 1 2 1) ⟨.D_LOAD, 4, 1⟩ + j)
          (written_block { hit := 1, miss := 0, eviction := 0 } blk
            (addr_tag (init_cache_params 1 2 1) ⟨.D_LOAD, 4, 1⟩) 7) ∧
      [(⟨1, 0, 3⟩ : cache_block), ⟨1, 2, 7⟩, ⟨0, 0, 0⟩, ⟨0, 0, 0⟩].length =
        [(⟨1, 0, 3⟩ : cache_block), ⟨1, 2, 1⟩, ⟨0, 0, 0⟩, ⟨0, 0, 0⟩].length ∧
      (∀ m, m ≠ set_start (init_cache_params 1 2 1) ⟨.D_LOAD, 4, 1⟩ + j →
        [(⟨1, 0, 3⟩ : cache_block), ⟨1, 2, 7⟩, ⟨0, 0, 0⟩, ⟨0, 0, 0⟩][m]? =
          [(⟨1, 0, 3⟩ : cache_block), ⟨1, 2, 1⟩, ⟨0, 0, 0⟩, ⟨0, 0, 0⟩][m]?) ∧
      (∀ k i, i < (init_cache_params 1 2 1).E →
        k ≠ (addr_set_index (init_cache_params 1 2 1) ⟨.D_LOAD, 4, 1⟩).toNat →
        [(⟨1, 0, 3⟩ : cache_block), ⟨1, 2, 7⟩, ⟨0, 0, 0⟩, ⟨0, 0, 0⟩][k *
            (init_cache_params 1 2 1).E + i]? =
          [(⟨1, 0, 3⟩ : cache_block), ⟨1, 2, 1⟩, ⟨0, 0, 0⟩, ⟨0, 0, 0⟩][k *
            (init_cache_params 1 2 1).E + i]?) ∧
      (∀ i, i < (init_cache_params 1 2 1).E → i ≠ j →
        [(⟨1, 0, 3⟩ : cache_block), ⟨1, 2, 7⟩, ⟨0, 0, 0⟩, ⟨0, 0, 0⟩][set_start
            (init_cache_params 1 2 1) ⟨.D_LOAD, 4, 1⟩ + i]? =
          [(⟨1, 0, 3⟩ : cache_block), ⟨1, 2, 1⟩, ⟨0, 0, 0⟩, ⟨0, 0, 0⟩][set_start
            (init_cache_params 1 2 1) ⟨.D_LOAD, 4, 1⟩ + i]?) :=
  lookup_writes_one_line [⟨1, 0, 3⟩, ⟨1, 2, 1⟩, ⟨0, 0, 0⟩, ⟨0, 0, 0⟩] (init_cache_params 1 2 1)
    ⟨.D_LOAD, 4, 1⟩ 7 { hit := 1, miss := 0, eviction := 0 } _ (by decide) (by decide)

/-- C12: in every cache state reachable from the cache that `main` initialises, no
set holds two different valid lines with the same tag. -/
theorem no_duplicate_tag (params : cache_params) (cache : List cache_block)
    (h : Reachable params cache) : ∀ k, ¬ duplicate_tag cache params.E k := by
  induction h with
  | init =>
    rintro k ⟨i, -, j, -, -, bi, hbi, hvi, -⟩
    have := List.eq_of_mem_replicate (List.getElem?_mem hbi)
    subst this
    simp at hvi
  | step cache line now r c1 hr hs ih =>
    rintro k ⟨i, hi, j, hj, hij, bi, hbi, hvi, bj, hbj, hvj, htag⟩
    have hE : 0 < params.E := by omega
    obtain ⟨j0, blk, nb, hj0, hget, hc, hbefore, hnbt, -, hkind⟩ :=
      simulate_written cache params line now r c1 hE hs
    subst hc
    by_cases hsame : nb.v_bit = blk.v_bit ∧ nb.tag = blk.tag
    · obtain ⟨bi0, hbi0, hvi0, hti0⟩ := same_fields_of_set cache _ _ blk nb bi hget
        hsame.1 hsame.2 hbi
      obtain ⟨bj0, hbj0, hvj0, htj0⟩ := same_fields_of_set cache _ _ blk nb bj hget
        hsame.1 hsame.2 hbj
      exact ih k ⟨i, hi, j, hj, hij, bi0, hbi0, by rw [hvi0, hvi], bj0, hbj0,
        by rw [hvj0, hvj], by rw [hti0, htj0, htag]⟩
    · have hcase : blk.v_bit = 0 ∨ ∀ i, i < params.E →
          ∃ b, cache[set_start params line + i]? = some b ∧
            skipped b (addr_tag params line) := by
        rcases hkind with ⟨hv, ht, hnv, -⟩ | ⟨hv, -, -⟩ | ⟨hall, -, -⟩
        · exact absurd ⟨hnv.trans hv.symm, hnbt.trans ht.symm⟩ hsame
        · exact Or.inl hv
        · exact Or.inr hall
      have hlen := getElem?_lt_length _ _ _ hget
      by_cases hi0 : k * params.E + i = set_start params line + j0
      · have hu := set_line_unique params.E k i _ j0 hi hj0 hi0
        have hjne : k * params.E + j ≠ set_start params line + j0 := by
          intro hj0'
          have hu2 := set_line_unique params.E k j _ j0 hj hj0 hj0'
          exact hij (hu.2.trans hu2.2.symm)
        rw [hi0, List.getElem?_set_self hlen] at hbi
        have hbi' : nb = bi := Option.some.inj hbi
        rw [getElem?_set_other cache _ _ nb hjne] at hbj
        have hkE : k * params.E = set_start params line := by rw [hu.1]; rfl
        rw [hkE] at hbj
        refine no_second_holder params cache hr line j0 blk hget hbefore hcase j hj ?_ bj
          hbj hvj ?_
        · intro hjj; exact hij (hu.2.trans hjj.symm)
        · rw [← htag, ← hbi', hnbt]
      · by_cases hj1 : k * params.E + j = set_start params line + j0
        · have hu := set_line_unique params.E k j _ j0 hj hj0 hj1
          rw [hj1, List.getElem?_set_self hlen] at hbj
          have hbj' : nb = bj := Option.some.inj hbj
          rw [getElem?_set_other cache _ _ nb hi0] at hbi
          have hkE : k * params.E = set_start params line := by rw [hu.1]; rfl
          rw [hkE] at hbi
          refine no_second_holder params cache hr line j0 blk hget hbefore hcase i hi ?_ bi
            hbi hvi ?_
          · intro hii; exact hij (hii.trans hu.2.symm)
          · rw [htag, ← hbj', hnbt]
        · rw [getElem?_set_other cache _ _ nb hi0] at hbi
          rw [getElem?_set_other cache _ _ nb hj1] at hbj
          exact ih k ⟨i, hi, j, hj, hij, bi, hbi, hvi, bj, hbj, hvj, htag⟩


/-- Witness of C12: `s=1, E=2, b=1` and the cache after a lookup of address 0. -/
theorem no_duplicate_tag_witness :
    ¬ duplicate_tag
      [⟨1, 0, 5⟩, ⟨0, 0, 0⟩, ⟨0, 0, 0⟩, ⟨0, 0, 0⟩, ⟨0, 0, 0⟩, ⟨0, 0, 0⟩, ⟨0, 0, 0⟩, ⟨0, 0, 0⟩]
      (init_cache_params 1 2 1).E 0 :=
  no_duplicate_tag (init_cache_params 1 2 1) _
    (Reachable.step (init_cache (2 * 2 * 2)) ⟨.D_LOAD, 0, 1⟩ 5
      { hit := 0, miss := 1, eviction := 0 } _ Reachable.init (by decide)) 0

/-- C13: for a DataModify record processed in a reachable cache state, the outcome
passed to `verbose` has hit, miss and eviction equal to the logical OR of the flags of
the first and of the second lookup; the expression `x | y ? 1 : 0` of the code is 1
exactly when one of two 0/1 flags is 1. -/
theorem modify_reports_or (s E b : Nat) (hE : 0 < E) (clk : Nat → Int) (st : sim_state)
    (line : cache_line) (hflag : line.flag = .D_MODIFY)
    (hreach : Reachable (init_cache_params s E b) st.cache) :
    (∃ r1 c1 r2 c2 st1,
      simulate_cache_read_write st.cache (init_cache_params s E b) line (clk st.clock_calls)
        = some (r1, c1) ∧
      simulate_cache_read_write c1 (init_cache_params s E b) line (clk (st.clock_calls + 1))
        = some (r2, c2) ∧
      process_line (init_cache_params s E b) clk st line = .ok st1 ∧
      st1.reported = st.reported ++
        [(line, { hit := logical_or r1.hit r2.hit, miss := logical_or r1.miss r2.miss,
                  eviction := logical_or r1.eviction r2.eviction })]) ∧
    (∀ x y : Int, (x = 0 ∨ x = 1) → (y = 0 ∨ y = 1) → or_flag y x = logical_or x y) := by
  refine ⟨?_, or_flag_bits⟩
  obtain ⟨r1, c1, h1, hr1, ho1⟩ := reachable_lookup s E b hE st.cache hreach line
    (clk st.clock_calls)
  obtain ⟨r2, c2, h2, -, ho2⟩ := reachable_lookup s E b hE c1 hr1 line
    (clk (st.clock_calls + 1))
  refine ⟨r1, c1, r2, c2, _, h1, h2, process_line_modify _ clk st line r1 r2 c1 c2 hflag h1 h2,
    ?_⟩
  obtain ⟨a1, a2, a3, -⟩ := single_outcome_bits r1 ho1
  obtain ⟨b1, b2, b3, -⟩ := single_outcome_bits r2 ho2
  simp only
  rw [or_flag_bits r1.hit r2.hit a1 b1, or_flag_bits r1.miss r2.miss a2 b2,
    or_flag_bits r1.eviction r2.eviction a3 b3]

/-- Witness of C13: `M 8,1` on the freshly initialised cache of `s=1, E=1, b=1`; the
lookups give `{0,1,0}` and `{1,0,0}` and the reported outcome is `{1,1,0}`. -/
theorem modify_reports_or_witness :
    (∃ r1 c1 r2 c2 st1,
      simulate_cache_read_write (init_cache (2 * 1 * 2)) (init_cache_params 1 1 1)
        ⟨.D_MODIFY, 8, 1⟩ 0 = some (r1, c1) ∧
      simulate_cache_read_write c1 (init_cache_params 1 1 1) ⟨.D_MODIFY, 8, 1⟩ 1
        = some (r2, c2) ∧
      process_line (init_cache_params 1 1 1) (fun k => k)
        ⟨init_cache (2 * 1 * 2), 0, 0, 0, 0, []⟩ ⟨.D_MODIFY, 8, 1⟩ = .ok st1 ∧
      st1.reported = [] ++
        [(cache_line.mk .D_MODIFY 8 1,
          { hit := logical_or r1.hit r2.hit, miss := logical_or r1.miss r2.miss,
            eviction := logical_or r1.eviction r2.eviction })]) ∧
    (∀ x y : Int, (x = 0 ∨ x = 1) → (y = 0 ∨ y = 1) → or_flag y x = logical_or x y) :=
  modify_reports_or 1 1 1 (by decide) (fun k => k) ⟨init_cache (2 * 1 * 2), 0, 0, 0, 0, []⟩
    ⟨.D_MODIFY, 8, 1⟩ rfl Reachable.init

/-- C14: for every trace without an `INVALID` record and positive `s`, `E`, `b`, the
run looks up each `I`, `L` or `S` record once and each `M` record twice, the summary
is the field-wise sum of the outcomes of these lookups, and hits plus misses is the
number of single-lookup records plus twice the number of `M` records. -/
theorem totals_are_sums (s E b : Int) (hs : 0 < s) (hE : 0 < E) (hb : 0 < b)
    (trace : List cache_line) (clk : Nat → Int)
    (hvalid : ∀ l, l ∈ trace → l.flag ≠ .INVALID) :
    ∃ outs cache1,
      run_lookups (init_cache_params s.toNat E.toNat b.toNat) clk
          (init_cache ((init_cache_params s.toNat E.toNat b.toNat).S *
            (init_cache_params s.toNat E.toNat b.toNat).E *
            (init_cache_params s.toNat E.toNat b.toNat).B)) 0 (lookups_of trace)
        = some (outs, cache1) ∧
      main_run s E b trace clk =
        .ok ((outs.map cache_result.hit).sum, (outs.map cache_result.miss).sum,
          (outs.map cache_result.eviction).sum) ∧
      outs.length = n_single trace + 2 * n_modify trace ∧
      (outs.map cache_result.hit).sum + (outs.map cache_result.miss).sum =
        ((n_single trace + 2 * n_modify trace : Nat) : Int) := by
  have hEn : 0 < E.toNat := by omega
  obtain ⟨outs, st1, hrun, hloop, -, hh, hmi, hev, -, hlen, hall⟩ :=
    main_loop_lookups s.toNat E.toNat b.toNat hEn clk trace
      { cache := init_cache ((init_cache_params s.toNat E.toNat b.toNat).S *
            (init_cache_params s.toNat E.toNat b.toNat).E *
            (init_cache_params s.toNat E.toNat b.toNat).B),
        hit_count := 0, miss_count := 0, eviction_count := 0, clock_calls := 0,
        reported := [] } hvalid Reachable.init
  have hcount := lookups_of_length trace hvalid
  refine ⟨outs, st1.cache, hrun, ?_, by rw [hlen, hcount], ?_⟩
  · have hguard : ¬ (s ≤ 0 ∨ E ≤ 0 ∨ b ≤ 0) := by omega
    unfold main_run
    rw [if_neg hguard]
    simp only [hloop, hh, hmi, hev, zero_add]
  · rw [outcome_sums outs hall, hlen, hcount]

/-- Witness of C14: `s=1, E=1, b=1` and the trace `L 0,1`, `M 8,1`. -/
theorem totals_are_sums_witness :
    ∃ outs cache1,
      run_lookups (init_cache_params (1 : Int).toNat (1 : Int).toNat (1 : Int).toNat)
          (fun k => k)
          (init_cache ((init_cache_params (1 : Int).toNat (1 : Int).toNat (1 : Int).toNat).S *
            (init_cache_params (1 : Int).toNat (1 : Int).toNat (1 : Int).toNat).E *
            (init_cache_params (1 : Int).toNat (1 : Int).toNat (1 : Int).toNat).B)) 0
          (lookups_of [⟨.D_LOAD, 0, 1⟩, ⟨.D_MODIFY, 8, 1⟩])
        = some (outs, cache1) ∧
      main_run 1 1 1 [⟨.D_LOAD, 0, 1⟩, ⟨.D_MODIFY, 8, 1⟩] (fun k => k) =
        .ok ((outs.map cache_result.hit).sum, (outs.map cache_result.miss).sum,
          (outs.map cache_result.eviction).sum) ∧
      outs.length = n_single [⟨.D_LOAD, 0, 1⟩, ⟨.D_MODIFY, 8, 1⟩] +
        2 * n_modify [⟨.D_LOAD, 0, 1⟩, ⟨.D_MODIFY, 8, 1⟩] ∧
      (outs.map cache_result.hit).sum + (outs.map cache_result.miss).sum =
        ((n_single [⟨.D_LOAD, 0, 1⟩, ⟨.D_MODIFY, 8, 1⟩] +
          2 * n_modify [⟨.D_LOAD, 0, 1⟩, ⟨.D_MODIFY, 8, 1⟩] : Nat) : Int) :=
  totals_are_sums 1 1 1 (by decide) (by decide) (by decide)
    [⟨.D_LOAD, 0, 1⟩, ⟨.D_MODIFY, 8, 1⟩] (fun k => k) (by decide)

/-- C15 (the claim as stated fails): the line of two spaces followed by `L 10,1`
consists of leading white space and the flag character `L`, and `init_cache_line`
returns the kind `INVALID`, because only the first space is removed and `%c` then
reads the second space as the flag. -/
theorem two_leading_spaces_invalid :
    (∀ ch, ch ∈ [' ', ' '] → isspace ch = true) ∧ isspace 'L' = false ∧
    flag_of_char 'L' = .D_LOAD ∧
    (init_cache_line (fun _ => (16, 1)) 'L' ([' ', ' '] ++ 'L' :: [' ', '1', '0', ',', '1'])).flag
      = .INVALID := by
  refine ⟨by decide, by decide, by decide, by decide⟩

/-- C15 (amended): for every trace line that consists of at most one leading white
space character followed by a flag character `c` and the rest of the record,
`init_cache_line` returns the kind `I_LOAD` if `c` is `I`, `D_LOAD` if `L`, `D_STORE`
if `S`, `D_MODIFY` if `M`, and `INVALID` for every other `c`; the white space
character, when there is one, is removed before the flag is read. -/
theorem flag_after_one_space (scan_numbers : List Char → Nat × Int) (uninit_flag : Char)
    (ws : List Char) (c : Char) (rest : List Char)
    (hws : ∀ ch, ch ∈ ws → isspace ch = true) (hlen : ws.length ≤ 1)
    (hc : ws = [] → isspace c = false) :
    (init_cache_line scan_numbers uninit_flag (ws ++ c :: rest)).flag = flag_of_char c ∧
    (c = 'I' → flag_of_char c = .I_LOAD) ∧ (c = 'L' → flag_of_char c = .D_LOAD) ∧
    (c = 'S' → flag_of_char c = .D_STORE) ∧ (c = 'M' → flag_of_char c = .D_MODIFY) ∧
    (c ≠ 'I' → c ≠ 'L' → c ≠ 'S' → c ≠ 'M' → flag_of_char c = .INVALID) := by
  refine ⟨?_, ?_, ?_, ?_, ?_, ?_⟩
  · match ws, hws, hlen, hc with
    | [], _, _, hc =>
      simp [init_cache_line, strip_leading, hc rfl]
    | [w], hws, _, _ =>
      have hw : isspace w = true := hws w (List.mem_singleton.2 rfl)
      simp [init_cache_line, strip_leading, hw]
    | _ :: _ :: _, _, hlen, _ => simp at hlen
  · intro h; subst h; decide
  · intro h; subst h; decide
  · intro h; subst h; decide
  · intro h; subst h; decide
  · intro h1 h2 h3 h4
    simp [flag_of_char, h1, h2, h3, h4]

/-- Witness of C15 (amended): the line of one space followed by `M 10,1`. -/
theorem flag_after_one_space_witness :
    (init_cache_line (fun _ => (16, 1)) 'L' ([' '] ++ 'M' :: [' ', '1', '0', ',', '1'])).flag
      = flag_of_char 'M' :=
  (flag_after_one_space (fun _ => (16, 1)) 'L' [' '] 'M' [' ', '1', '0', ',', '1']
    (by decide) (by decide) (by decide)).1

/-- C16: when the first `INVALID` record of a trace comes after the records `pre`, the
run processes `pre` as it would alone, stops at the `INVALID` record with exit status 1
and reports no totals; the lookups made are those of `pre`, none for the `INVALID`
record and none for a later record. -/
theorem invalid_record_stops (s E b : Int) (hs : 0 < s) (hE : 0 < E) (hb : 0 < b)
    (pre post : List cache_line) (bad : cache_line) (clk : Nat → Int)
    (hbad : bad.flag = .INVALID) (hpre : ∀ l, l ∈ pre → l.flag ≠ .INVALID) :
    main_run s E b (pre ++ bad :: post) clk = .error .exit_failure ∧
    (∃ st1,
      main_loop (init_cache_params s.toNat E.toNat b.toNat) clk
        { cache := init_cache ((init_cache_params s.toNat E.toNat b.toNat).S *
            (init_cache_params s.toNat E.toNat b.toNat).E *
            (init_cache_params s.toNat E.toNat b.toNat).B),
          hit_count := 0, miss_count := 0, eviction_count := 0, clock_calls := 0,
          reported := [] } pre = .ok st1 ∧
      st1.clock_calls = (lookups_of pre).length ∧
      process_line (init_cache_params s.toNat E.toNat b.toNat) clk st1 bad
        = .error .exit_failure ∧
      main_loop (init_cache_params s.toNat E.toNat b.toNat) clk st1 (bad :: post)
        = .error .exit_failure) ∧
    lookups_of (pre ++ bad :: post) = lookups_of pre ∧
    (∀ (cache_info : cache_params) (st : sim_state),
      process_line cache_info clk st bad = .error .exit_failure) := by
  have hEn : 0 < E.toNat := by omega
  obtain ⟨outs, st1, -, hloop, -, -, -, -, hcl, hlen, -⟩ :=
    main_loop_lookups s.toNat E.toNat b.toNat hEn clk pre
      { cache := init_cache ((init_cache_params s.toNat E.toNat b.toNat).S *
            (init_cache_params s.toNat E.toNat b.toNat).E *
            (init_cache_params s.toNat E.toNat b.toNat).B),
        hit_count := 0, miss_count := 0, eviction_count := 0, clock_calls := 0,
        reported := [] } hpre Reachable.init
  have hstop : main_loop (init_cache_params s.toNat E.toNat b.toNat) clk st1 (bad :: post)
      = .error .exit_failure := by
    simp [main_loop, process_line_invalid _ clk st1 bad hbad]
  refine ⟨?_, ⟨st1, hloop, ?_, process_line_invalid _ clk st1 bad hbad, hstop⟩,
    lookups_of_before_invalid pre post bad hbad,
    fun cache_info st => process_line_invalid cache_info clk st bad hbad⟩
  · have hguard : ¬ (s ≤ 0 ∨ E ≤ 0 ∨ b ≤ 0) := by omega
    unfold main_run
    rw [if_neg hguard]
    simp only [main_loop_append, hloop, hstop]
  · rw [hcl, hlen]
    simp

/-- Witness of C16: `s=1, E=1, b=1` and the trace `L 0,1`, an `INVALID` record,
`L 8,1`. -/
theorem invalid_record_stops_witness :
    main_run 1 1 1 ([⟨.D_LOAD, 0, 1⟩] ++ ⟨.INVALID, 0, 0⟩ :: [⟨.D_LOAD, 8, 1⟩]) (fun k => k)
      = .error .exit_failure :=
  (invalid_record_stops 1 1 1 (by decide) (by decide) (by decide) [⟨.D_LOAD, 0, 1⟩]
    [⟨.D_LOAD, 8, 1⟩] ⟨.INVALID, 0, 0⟩ (fun k => k) rfl (by decide)).1

/-- C17 (the claim as stated fails): with `s=1, E=2, b=1`, when the lookups of the
addresses 0 and 4 read the same value 5 from `clock()`, the second lookup writes a
recency that is not greater than the first, the two valid lines of set 0 have equal
recency, and the lookup of address 8 chooses line 0 by the lowest-index tie-break. -/
theorem clock_tie_equal_stamps :
    run_lookups (init_cache_params 1 2 1) (fun _ => 5) (init_cache (2 * 2 * 2)) 0
        [⟨.D_LOAD, 0, 1⟩, ⟨.D_LOAD, 4, 1⟩]
      = some ([{ hit := 0, miss := 1, eviction := 0 }, { hit := 0, miss := 1, eviction := 0 }],
          [⟨1, 0, 5⟩, ⟨1, 2, 5⟩, ⟨0, 0, 0⟩, ⟨0, 0, 0⟩, ⟨0, 0, 0⟩, ⟨0, 0, 0⟩, ⟨0, 0, 0⟩,
            ⟨0, 0, 0⟩]) ∧
    equal_stamps
      [⟨1, 0, 5⟩, ⟨1, 2, 5⟩, ⟨0, 0, 0⟩, ⟨0, 0, 0⟩, ⟨0, 0, 0⟩, ⟨0, 0, 0⟩, ⟨0, 0, 0⟩, ⟨0, 0, 0⟩]
      2 0 ∧
    simulate_cache_read_write
        [⟨1, 0, 5⟩, ⟨1, 2, 5⟩, ⟨0, 0, 0⟩, ⟨0, 0, 0⟩, ⟨0, 0, 0⟩, ⟨0, 0, 0⟩, ⟨0, 0, 0⟩, ⟨0, 0, 0⟩]
        (init_cache_params 1 2 1) ⟨.D_LOAD, 8, 1⟩ 5
      = some ({ hit := 0, miss := 1, eviction := 1 },
          [⟨1, 4, 5⟩, ⟨1, 2, 5⟩, ⟨0, 0, 0⟩, ⟨0, 0, 0⟩, ⟨0, 0, 0⟩, ⟨0, 0, 0⟩, ⟨0, 0, 0⟩,
            ⟨0, 0, 0⟩]) ∧
    ¬ strict_lru_line
      [⟨1, 0, 5⟩, ⟨1, 2, 5⟩, ⟨0, 0, 0⟩, ⟨0, 0, 0⟩, ⟨0, 0, 0⟩, ⟨0, 0, 0⟩, ⟨0, 0, 0⟩, ⟨0, 0, 0⟩]
      0 2 0 := by
  refine ⟨by decide, by decide, by decide, by decide⟩

/-- C17 (amended): the recency that the `n`-th lookup writes is the `n`-th reading of
`clock()`; when the readings are strictly increasing, it is greater than the recency
of every valid line, which an earlier lookup wrote, so in every reachable cache state
no two valid lines of a set have equal recency, and the line that a miss with
eviction overwrites has a recency strictly smaller than every other line of the set:
the LRU victim is never chosen by the lowest-index tie-break. -/
theorem strict_clock_no_ties (params : cache_params) (clk : Nat → Int) (hclk : StrictMono clk)
    (cache : List cache_block) (n : Nat) (h : ReachableAt params clk cache n) :
    (∀ (idx : Nat) (blk : cache_block), cache[idx]? = some blk → blk.v_bit = 1 → blk.tstamp < clk n) ∧
    (∀ k, ¬ equal_stamps cache params.E k) ∧
    (∀ line r after, 0 < params.E →
      simulate_cache_read_write cache params line (clk n) = some (r, after) →
      (∃ j nb, j < params.E ∧ after[set_start params line + j]? = some nb ∧
        nb.tstamp = clk n) ∧
      (r.eviction = 1 →
        ∃ j, j < params.E ∧ strict_lru_line cache (set_start params line) params.E j ∧
          overwritten cache after (set_start params line + j) (addr_tag params line)
            (clk n))) := by
  obtain ⟨hs1, hs2⟩ := reachable_at_stamps params clk hclk cache n h
  have hbit := reachable_v_bit params cache (reachable_at_reachable params clk cache n h)
  refine ⟨?_, ?_, ?_⟩
  · intro idx blk hget hv
    obtain ⟨k, hk, hk2⟩ := hs1 idx blk hget hv
    rw [hk2]
    exact hclk hk
  · rintro k ⟨i, -, j, -, hij, bi, hbi, hvi, bj, hbj, hvj, hts⟩
    exact hs2 (k * params.E + i) (k * params.E + j) bi bj (by omega) hbi hvi hbj hvj hts
  · intro line r after hE hsim
    constructor
    · obtain ⟨j, blk, nb, hj, hget, hc, -, -, hts, -⟩ :=
        simulate_written cache params line (clk n) r after hE hsim
      refine ⟨j, nb, hj, ?_, hts⟩
      rw [hc]
      exact List.getElem?_set_self (getElem?_lt_length _ _ _ hget)
    · intro hev
      rcases simulate_cases _ _ _ _ _ _ hsim with
        ⟨_, _, _, _, _, _, _, hr, _⟩ | ⟨_, _, _, _, _, _, _, hr, _⟩ |
        ⟨hall, hr, j, blk, hj, hget, hmin, -, hc⟩
      · rw [hr] at hev; simp at hev
      · rw [hr] at hev; simp at hev
      · have hjE : j < params.E := by
          rcases hj with hj | hj
          · exact hj
          · rw [hj]; exact hE
        have hvalid : ∀ i, i < params.E →
            ∃ b, cache[set_start params line + i]? = some b ∧ b.v_bit = 1 := by
          intro i hi
          obtain ⟨b, hb, hskip⟩ := hall i hi
          refine ⟨b, hb, ?_⟩
          rcases hbit b (List.getElem?_mem hb) with h0 | h1
          · exact absurd h0 hskip.2
          · exact h1
        obtain ⟨bj, hbj, hvj⟩ := hvalid j hjE
        have hbb : bj = blk := Option.some.inj (hbj.symm.trans hget)
        subst hbb
        refine ⟨j, hjE, ⟨bj, hget, ?_⟩, bj, hget, ?_, hc, ?_⟩
        · intro k hk hkj
          obtain ⟨b, hb, hle⟩ := hmin k hk
          obtain ⟨b2, hb2, hv2⟩ := hvalid k hk
          have : b2 = b := Option.some.inj (hb2.symm.trans hb)
          subst this
          have hne := hs2 (set_start params line + j) (set_start params line + k) bj b2
            (by omega) hget hvj hb hv2
          exact ⟨b2, hb, lt_of_le_of_ne hle hne⟩
        · rw [hvj]; decide
        · rw [hc]
          exact List.getElem?_set_self (getElem?_lt_length _ _ _ hget)

/-- Witness of C17 (amended): `s=1, E=2, b=1`, the clock readings 0, 1, 2, ... and the
cache after the lookups of the addresses 0 and 4. -/
theorem strict_clock_no_ties_witness :
    ¬ equal_stamps
      [⟨1, 0, 0⟩, ⟨1, 2, 1⟩, ⟨0, 0, 0⟩, ⟨0, 0, 0⟩, ⟨0, 0, 0⟩, ⟨0, 0, 0⟩, ⟨0, 0, 0⟩, ⟨0, 0, 0⟩]
      (init_cache_params 1 2 1).E 0 :=
  (strict_clock_no_ties (init_cache_params 1 2 1) (fun k => (k : Int))
    (fun _ _ hab => Int.ofNat_lt.2 hab) _ 2
    (ReachableAt.step _ 1 ⟨.D_LOAD, 4, 1⟩ { hit := 0, miss := 1, eviction := 0 } _
      (ReachableAt.step (init_cache (2 * 2 * 2)) 0 ⟨.D_LOAD, 0, 1⟩
        { hit := 0, miss := 1, eviction := 0 }
        [⟨1, 0, 0⟩, ⟨0, 0, 0⟩, ⟨0, 0, 0⟩, ⟨0, 0, 0⟩, ⟨0, 0, 0⟩, ⟨0, 0, 0⟩, ⟨0, 0, 0⟩, ⟨0, 0, 0⟩]
        ReachableAt.init (by decide))
      (by decide))).2.1 0

/-- C19: from every cache state whose valid bits are 0 or 1 and that contains the
target set, a lookup followed at once by a lookup of the same address makes the
second lookup a hit with no miss and no eviction, whatever the first returned; so a
DataModify record adds at least one hit, at most one miss and at most one eviction
to the totals. -/
theorem second_lookup_is_hit (cache : List cache_block) (params : cache_params)
    (l1 l2 : cache_line) (now1 now2 : Int) (hE : 0 < params.E) (haddr : l1.addr = l2.addr)
    (hbits : ∀ blk, blk ∈ cache → blk.v_bit = 0 ∨ blk.v_bit = 1)
    (hb : set_start params l1 + params.E ≤ cache.length) :
    (∃ r1 c1 c2, simulate_cache_read_write cache params l1 now1 = some (r1, c1) ∧
      simulate_cache_read_write c1 params l2 now2 =
        some ({ hit := 1, miss := 0, eviction := 0 }, c2)) ∧
    (∀ (clk : Nat → Int) (st : sim_state), st.cache = cache → l1.flag = .D_MODIFY →
      ∃ st1, process_line params clk st l1 = .ok st1 ∧
        st.hit_count + 1 ≤ st1.hit_count ∧
        st.miss_count ≤ st1.miss_count ∧ st1.miss_count ≤ st.miss_count + 1 ∧
        st.eviction_count ≤ st1.eviction_count ∧
        st1.eviction_count ≤ st.eviction_count + 1) := by
  have hmax : max params.E 1 = params.E := max_eq_left hE
  constructor
  · obtain ⟨r1, c1, h1⟩ := simulate_total cache params l1 now1 (by rw [hmax]; exact hb)
    obtain ⟨c2, h2⟩ := second_lookup_after cache params l1 l2 now1 now2 r1 c1 hE haddr hbits h1
    exact ⟨r1, c1, c2, h1, h2⟩
  · intro clk st hst hflag
    subst hst
    obtain ⟨r1, c1, h1⟩ := simulate_total st.cache params l1 (clk st.clock_calls)
      (by rw [hmax]; exact hb)
    obtain ⟨c2, h2⟩ := second_lookup_after st.cache params l1 l1 (clk st.clock_calls)
      (clk (st.clock_calls + 1)) r1 c1 hE rfl hbits h1
    refine ⟨_, process_line_modify params clk st l1 _ _ _ _ hflag h1 h2, ?_⟩
    obtain ⟨_, _, _, -, -, -, -, -, -, hkind⟩ :=
      simulate_written st.cache params l1 (clk st.clock_calls) r1 c1 hE h1
    rcases hkind with ⟨-, -, -, hr⟩ | ⟨-, -, hr⟩ | ⟨-, -, hr⟩ <;>
    · subst hr
      simp

/-- Witness of C19: `s=1, E=1, b=1`, a cache whose set 0 holds another tag, and two
lookups of address 8; the first one is a miss with eviction. -/
theorem second_lookup_is_hit_witness :
    (∃ r1 c1 c2, simulate_cache_read_write [⟨1, 0, 0⟩, ⟨0, 0, 0⟩, ⟨0, 0, 0⟩, ⟨0, 0, 0⟩]
        (init_cache_params 1 1 1) ⟨.D_MODIFY, 8, 1⟩ 1 = some (r1, c1) ∧
      simulate_cache_read_write c1 (init_cache_params 1 1 1) ⟨.D_MODIFY, 8, 1⟩ 2 =
        some ({ hit := 1, miss := 0, eviction := 0 }, c2)) ∧
    (∀ (clk : Nat → Int) (st : sim_state),
      st.cache = [⟨1, 0, 0⟩, ⟨0, 0, 0⟩, ⟨0, 0, 0⟩, ⟨0, 0, 0⟩] →
      (cache_line.mk .D_MODIFY 8 1).flag = .D_MODIFY →
      ∃ st1, process_line (init_cache_params 1 1 1) clk st ⟨.D_MODIFY, 8, 1⟩ = .ok st1 ∧
        st.hit_count + 1 ≤ st1.hit_count ∧
        st.miss_count ≤ st1.miss_count ∧ st1.miss_count ≤ st.miss_count + 1 ∧
        st.eviction_count ≤ st1.eviction_count ∧
        st1.eviction_count ≤ st.eviction_count + 1) :=
  second_lookup_is_hit [⟨1, 0, 0⟩, ⟨0, 0, 0⟩, ⟨0, 0, 0⟩, ⟨0, 0, 0⟩] (init_cache_params 1 1 1)
    ⟨.D_MODIFY, 8, 1⟩ ⟨.D_MODIFY, 8, 1⟩ 1 2 (by decide) rfl (by decide) (by decide)

/-- C20: in every cache state reachable from the cache that `init_cache` produces, the
valid lines of each set come first in the set, every valid bit is 0 or 1, and a
lookup leaves every valid line valid. -/
theorem reachable_valid_lines (params : cache_params) (cache : List cache_block)
    (h : Reachable params cache) :
    (∀ k, valid_first cache params.E k) ∧
    (∀ blk, blk ∈ cache → blk.v_bit = 0 ∨ blk.v_bit = 1) ∧
    (∀ line now r after, simulate_cache_read_write cache params line now = some (r, after) →
      ∀ m, valid_at cache m → valid_at after m) :=
  ⟨fun k i hi j hj hv => reachable_valid_run params cache h k i j hj hi hv,
    reachable_v_bit params cache h,
    fun line now r after hs m hv => simulate_keeps_valid cache params line now r after hs m hv⟩

/-- Witness of C20: `s=1, E=2, b=1` and the cache after a lookup of address 0. -/
theorem reachable_valid_lines_witness :
    (∀ k, valid_first
      [⟨1, 0, 5⟩, ⟨0, 0, 0⟩, ⟨0, 0, 0⟩, ⟨0, 0, 0⟩, ⟨0, 0, 0⟩, ⟨0, 0, 0⟩, ⟨0, 0, 0⟩, ⟨0, 0, 0⟩]
      (init_cache_params 1 2 1).E k) ∧
    (∀ blk, blk ∈ [(⟨1, 0, 5⟩ : cache_block), ⟨0, 0, 0⟩, ⟨0, 0, 0⟩, ⟨0, 0, 0⟩, ⟨0, 0, 0⟩,
        ⟨0, 0, 0⟩, ⟨0, 0, 0⟩, ⟨0, 0, 0⟩] → blk.v_bit = 0 ∨ blk.v_bit = 1) ∧
    (∀ line now r after, simulate_cache_read_write
        [⟨1, 0, 5⟩, ⟨0, 0, 0⟩, ⟨0, 0, 0⟩, ⟨0, 0, 0⟩, ⟨0, 0, 0⟩, ⟨0, 0, 0⟩, ⟨0, 0, 0⟩, ⟨0, 0, 0⟩]
        (init_cache_params 1 2 1) line now = some (r, after) →
      ∀ m, valid_at
          [⟨1, 0, 5⟩, ⟨0, 0, 0⟩, ⟨0, 0, 0⟩, ⟨0, 0, 0⟩, ⟨0, 0, 0⟩, ⟨0, 0, 0⟩, ⟨0, 0, 0⟩, ⟨0, 0, 0⟩]
          m → valid_at after m) :=
  reachable_valid_lines (init_cache_params 1 2 1) _
    (Reachable.step (init_cache (2 * 2 * 2)) ⟨.D_LOAD, 0, 1⟩ 5
      { hit := 0, miss := 1, eviction := 0 } _ Reachable.init (by decide))

end CacheSim
